import Mathlib

/-!
# Verification of the acoustic-print core

A shallow embedding, in Lean 4, of the algorithmic core of the
`peter-ai/acoustic-print` repository:

* `norm_tempo` (src/acoustic_helpers/__init__.py): tempo normalisation;
* `generate_acousticprint` (src/acoustic_helpers/__init__.py, identical body
  `generate_fingerprint` in src/1_Home.py): the fingerprint-curve generator;
* `get_filtered_tracks` (src/acoustic_helpers/__init__.py): the catalogue
  filter producing the deduplicated track view and the genre-row view;
* the per-genre cosine-distance recommender of src/pages/3_Album.py,
  including an emulation of `np.argpartition` (numpy's introselect on the
  index array) and of sklearn's `cosine_distances` input checking.

Real numbers are embedded as `Rat`; the transcendental kernel
(`np.cos`, `np.sin`, `np.pi`) and the cosine-distance metric are passed as
explicit function parameters, since the claims under study are independent
of their pointwise values.  Python exceptions are embedded as `Except`.
-/

/-- A pandas cell value: the tables hold numbers and strings. -/
inductive Value where
  | num (q : Rat)
  | str (s : String)
deriving DecidableEq, Repr

/-- A pandas DataFrame: a column-name header and a list of rows. -/
structure Frame where
  cols : List String
  rows : List (List Value)
deriving DecidableEq, Repr

/-- Errors raised by the embedded pandas operations. -/
inductive FErr where
  | keyError (c : String)
  | typeError
deriving DecidableEq, Repr

/-- The user-selected filter parameters of `get_filtered_tracks`
(the FilterSpec of the spec). -/
structure FilterSpec where
  minValence : Rat
  maxValence : Rat
  minEnergy : Rat
  maxEnergy : Rat
  minDance : Rat
  maxDance : Rat
  minAcoustics : Rat
  maxAcoustics : Rat
  minInstrument : Rat
  maxInstrument : Rat
  minSpeech : Rat
  maxSpeech : Rat
  minLive : Rat
  maxLive : Rat
  minTempo : Rat
  maxTempo : Rat
  minDuration : Rat
  maxDuration : Rat
  explicitVals : List Rat
deriving DecidableEq, Repr

/-- Index of a column name in a header (pandas column lookup). -/
def idxOf? (cols : List String) (c : String) : Option Nat :=
  match cols with
  | [] => none
  | c0 :: rest => if c0 = c then some 0 else (idxOf? rest c).map (· + 1)

/-- `df["c"]` on one row: `KeyError` when the column is missing. -/
def getCol (cols : List String) (row : List Value) (c : String) : Except FErr Value :=
  match idxOf? cols c with
  | none => .error (.keyError c)
  | some i =>
    match row.get? i with
    | none => .error (.keyError c)
    | some v => .ok v

/-- `q <= column` : comparing a number against a string cell raises
`TypeError`, as pandas does for `float <= str`. -/
def leNumVal (q : Rat) (v : Value) : Except FErr Bool :=
  match v with
  | .num r => .ok (decide (q ≤ r))
  | .str _ => .error .typeError

/-- `column <= q` : same typing rule as `leNumVal`. -/
def valLeNum (v : Value) (q : Rat) : Except FErr Bool :=
  match v with
  | .num r => .ok (decide (r ≤ q))
  | .str _ => .error .typeError

/-- `Series.isin(vals)`: membership test; a string cell is simply not a
member of a numeric list (pandas returns False, not an error). -/
def isinVal (v : Value) (vals : List Rat) : Bool :=
  match v with
  | .num r => decide (r ∈ vals)
  | .str _ => false

/-- The boolean mask of `get_filtered_tracks` for one row, with the
comparisons evaluated in the order they appear in the source. -/
def rowMask (cols : List String) (s : FilterSpec) (row : List Value) : Except FErr Bool := do
  let vval ← getCol cols row "Valence"
  let b1 ← leNumVal s.minValence vval
  let b2 ← valLeNum vval s.maxValence
  let ven ← getCol cols row "Energy"
  let b3 ← leNumVal s.minEnergy ven
  let b4 ← valLeNum ven s.maxEnergy
  let vda ← getCol cols row "Danceability"
  let b5 ← leNumVal s.minDance vda
  let b6 ← valLeNum vda s.maxDance
  let vac ← getCol cols row "Acousticness"
  let b7 ← leNumVal s.minAcoustics vac
  let b8 ← valLeNum vac s.maxAcoustics
  let vin ← getCol cols row "Instrumentalness"
  let b9 ← leNumVal s.minInstrument vin
  let b10 ← valLeNum vin s.maxInstrument
  let vsp ← getCol cols row "Speechiness"
  let b11 ← leNumVal s.minSpeech vsp
  let b12 ← valLeNum vsp s.maxSpeech
  let vli ← getCol cols row "Liveness"
  let b13 ← leNumVal s.minLive vli
  let b14 ← valLeNum vli s.maxLive
  let vte ← getCol cols row "Tempo"
  let b15 ← leNumVal s.minTempo vte
  let b16 ← valLeNum vte s.maxTempo
  let vdu ← getCol cols row "Duration"
  let b17 ← leNumVal (s.minDuration * 60) vdu
  let b18 ← valLeNum vdu (s.maxDuration * 60)
  let vex ← getCol cols row "Explicit"
  let b19 := isinVal vex s.explicitVals
  return b1 && (b2 && (b3 && (b4 && (b5 && (b6 && (b7 && (b8 && (b9 && (b10 &&
    (b11 && (b12 && (b13 && (b14 && (b15 && (b16 && (b17 && (b18 && b19)))))))))))))))))

/-- `df.loc[mask, :]` : keep the rows whose mask is `True`; any typing
error while the mask is evaluated aborts the whole selection. -/
def maskRows (cols : List String) (s : FilterSpec) : List (List Value) → Except FErr (List (List Value))
  | [] => .ok []
  | r :: rs => do
    let b ← rowMask cols s r
    let rest ← maskRows cols s rs
    return if b then r :: rest else rest

/-- Python's `x // 60` on a nonnegative integer count of seconds. -/
def minutesOf (x : Int) : Int := Int.fdiv x 60

/-- Python's `f"{n:02d}"`: decimal form left-padded with zeros to width 2. -/
def pad2 (n : Int) : String :=
  let s := toString n
  if s.length < 2 then "0" ++ s else s

/-- The duration re-encoding `f"{x//60}:{x-((x//60)*60):02d}"`.
The format specifier `:02d` requires an integer, so a fractional or
string cell raises. -/
def fmtDuration (v : Value) : Except FErr Value :=
  match v with
  | .num q =>
    if q.den = 1 then
      .ok (.str (toString (minutesOf q.num) ++ ":" ++ pad2 (q.num - minutesOf q.num * 60)))
    else .error .typeError
  | .str _ => .error .typeError

/-- Sequential effectful map (the spine of `Series.apply` and of row-wise
loops), written by explicit recursion so proofs can follow it. -/
def mapExcept (g : α → Except ε β) : List α → Except ε (List β)
  | [] => .ok []
  | a :: l => do
    let b ← g a
    let rest ← mapExcept g l
    return b :: rest

/-- `df["Duration"] = df.Duration.apply(...)`: attribute access raises when
the column is absent, else the column is rewritten in place. -/
def applyDurationFmt (f : Frame) : Except FErr Frame :=
  match idxOf? f.cols "Duration" with
  | none => .error (.keyError "Duration")
  | some i => do
    let rows ← mapExcept (fun row => do
      let v ← match row.get? i with
              | some v => fmtDuration v
              | none => .error (FErr.typeError)
      return row.set i v) f.rows
    return ⟨f.cols, rows⟩

/-- `df.filter(items)`: keep the listed columns that exist, in the order of
`items`; missing items are silently skipped. -/
def filterCols (f : Frame) (items : List String) : Frame :=
  let keep := items.filter (fun c => (idxOf? f.cols c).isSome)
  ⟨keep, f.rows.map (fun row => keep.map (fun c =>
    match idxOf? f.cols c with
    | some i => (row.get? i).getD (.num 0)
    | none => .num 0))⟩

/-- `df.drop([c], axis=1)`: `KeyError` when the column is missing. -/
def dropColF (f : Frame) (c : String) : Except FErr Frame :=
  match idxOf? f.cols c with
  | none => .error (.keyError c)
  | some i => .ok ⟨f.cols.eraseIdx i, f.rows.map (fun row => row.eraseIdx i)⟩

/-- Helper of `dropDuplicates`: drop rows already seen. -/
def dropDupAux (seen : List (List Value)) : List (List Value) → List (List Value)
  | [] => []
  | r :: rs => if r ∈ seen then dropDupAux seen rs else r :: dropDupAux (r :: seen) rs

/-- `df.drop_duplicates()`: keep the first occurrence of each row. -/
def dropDuplicates (rs : List (List Value)) : List (List Value) :=
  dropDupAux [] rs

/-- `get_filtered_tracks` (src/acoustic_helpers/__init__.py, lines 164-212):
mask the join rows, drop the last column (`.iloc[:, :-1]`), re-encode
`Duration` as `minutes:seconds` text, then split into the genre-row view
(`filter` of nine columns) and the track view (`Genre` dropped, duplicate
rows collapsed). -/
def get_filtered_tracks (tracks : Frame) (s : FilterSpec) : Except FErr (Frame × Frame) := do
  let kept ← maskRows tracks.cols s tracks.rows
  let f1 : Frame := ⟨tracks.cols.dropLast, kept.map (fun row => row.dropLast)⟩
  let f2 ← applyDurationFmt f1
  let genresDf := filterCols f2 ["id", "Valence", "Energy", "Danceability",
    "Acousticness", "Instrumentalness", "Speechiness", "Liveness", "Genre"]
  let tracksDf ← dropColF f2 "Genre"
  return (⟨tracksDf.cols, dropDuplicates tracksDf.rows⟩, genresDf)

/-- Errors of the fingerprint generator and tempo normaliser. -/
inductive GenErr where
  | typeErr
  | catErr
  | linspaceErr
  | domainErr
deriving DecidableEq, Repr

/-- View of an `Except` as a sum, to transport decidable equality. -/
def exceptToSum : Except ε α → ε ⊕ α
  | .error e => .inl e
  | .ok a => .inr a

instance [DecidableEq ε] [DecidableEq α] : DecidableEq (Except ε α) := fun a b =>
  decidable_of_iff (exceptToSum a = exceptToSum b) (by
    cases a <;> cases b <;> simp [exceptToSum])

/-- `max_tempo = 251.072`. -/
def MAX_TEMPO : Rat := 251.072

/-- `min_tempo = 12.75`. -/
def MIN_TEMPO : Rat := 12.75

/-- `norm_tempo` (src/acoustic_helpers/__init__.py, lines 238-266):
raises `ValueError` when `tempo <= min_tempo or max_tempo < tempo`, else
returns `((tempo - min_tempo) / (max_tempo - min_tempo)) * 10`. -/
def norm_tempo (tempo : Rat) : Except GenErr Rat :=
  if tempo ≤ MIN_TEMPO ∨ MAX_TEMPO < tempo then .error .domainErr
  else .ok (((tempo - MIN_TEMPO) / (MAX_TEMPO - MIN_TEMPO)) * 10)

/-- C5 (supporting): the normalised value formula. -/
def normTempoFormula (tempo : Rat) : Rat :=
  ((tempo - MIN_TEMPO) / (MAX_TEMPO - MIN_TEMPO)) * 10

/-- **C5.** `norm_tempo` errors exactly on `tempo ≤ 12.75` or
`tempo > 251.072`; on every tempo strictly inside `(12.75, 251.072]` it
returns `((tempo - 12.75) / (251.072 - 12.75)) * 10`, a value in `(0, 10]`;
in particular `norm_tempo 12.75` fails and `norm_tempo 251.072 = 10`. -/
theorem norm_tempo_spec :
    (∀ t : Rat, norm_tempo t = .error .domainErr ↔ (t ≤ 12.75 ∨ 251.072 < t)) ∧
    (∀ t : Rat, 12.75 < t → t ≤ 251.072 →
      norm_tempo t = .ok (((t - 12.75) / (251.072 - 12.75)) * 10) ∧
      0 < normTempoFormula t ∧ normTempoFormula t ≤ 10) ∧
    norm_tempo 12.75 = .error .domainErr ∧
    norm_tempo 251.072 = .ok 10 := by
  refine ⟨?_, ?_, ?_, ?_⟩
  · intro t
    unfold norm_tempo MIN_TEMPO MAX_TEMPO
    by_cases h : t ≤ 12.75 ∨ 251.072 < t
    · rw [if_pos h]
      simpa using h
    · rw [if_neg h]
      simp [h]
  · intro t h1 h2
    have hne : ¬ (t ≤ MIN_TEMPO ∨ MAX_TEMPO < t) := by
      unfold MIN_TEMPO MAX_TEMPO
      push_neg
      exact ⟨h1, h2⟩
    refine ⟨?_, ?_, ?_⟩
    · unfold norm_tempo
      rw [if_neg hne]
      unfold MIN_TEMPO MAX_TEMPO
      rfl
    · unfold normTempoFormula MIN_TEMPO MAX_TEMPO
      have hpos : (0:Rat) < t - 12.75 := by linarith
      have hden : (0:Rat) < 251.072 - 12.75 := by norm_num
      positivity
    · unfold normTempoFormula MIN_TEMPO MAX_TEMPO
      have hden : (0:Rat) < 251.072 - 12.75 := by norm_num
      have hr : (t - 12.75) / (251.072 - 12.75) ≤ 1 := by
        rw [div_le_one hden]
        linarith
      linarith
  · have hc : (12.75:Rat) ≤ MIN_TEMPO ∨ MAX_TEMPO < 12.75 := by
      unfold MIN_TEMPO MAX_TEMPO
      norm_num
    unfold norm_tempo
    rw [if_pos hc]
  · have hc : ¬ ((251.072:Rat) ≤ MIN_TEMPO ∨ MAX_TEMPO < 251.072) := by
      unfold MIN_TEMPO MAX_TEMPO
      push_neg
      norm_num
    unfold norm_tempo
    rw [if_neg hc]
    have h10 : ((251.072:Rat) - MIN_TEMPO) / (MAX_TEMPO - MIN_TEMPO) * 10 = 10 := by
      unfold MIN_TEMPO MAX_TEMPO
      norm_num
    rw [h10]

/-- **C5 witness.** The theorem's inner hypotheses discharged at
`t = 100` (and the hypothesis-free clauses restated). -/
theorem norm_tempo_spec_witness :
    (12.75 : Rat) < 100 ∧ (100 : Rat) ≤ 251.072 ∧
    (norm_tempo 100 = .ok (((100 - 12.75) / (251.072 - 12.75)) * 10) ∧
      0 < normTempoFormula 100 ∧ normTempoFormula 100 ≤ 10) ∧
    (norm_tempo 42 = .error .domainErr ↔ ((42:Rat) ≤ 12.75 ∨ (251.072:Rat) < 42)) :=
  ⟨by norm_num, by norm_num,
    norm_tempo_spec.2.1 100 (by norm_num) (by norm_num),
    norm_tempo_spec.1 42⟩

/-- The dynamic type of the `points` argument: Python's
`isinstance(points, int)` check only distinguishes ints from non-ints. -/
inductive PyInt where
  | int (n : Int)
  | notInt
deriving DecidableEq, Repr

/-- The audio-feature vector of one track (the numeric columns the
fingerprint generator reads from its 1-row DataFrame). -/
structure Features where
  valence : Rat
  energy : Rat
  danceability : Rat
  acousticness : Rat
  instrumentalness : Rat
  speechiness : Rat
  liveness : Rat
  tempo : Rat
deriving DecidableEq, Repr

/-- One output row of the fingerprint table: (Attribute, X, Y, Z). -/
structure PrintRow where
  attr : String
  x : Rat
  y : Rat
  z : Rat
deriving DecidableEq, Repr

/-- `np.linspace(0, stop, n)`: `n` evenly spaced samples, step
`stop / (n - 1)`; numpy raises for a negative sample count.  (For `n = 1`
numpy returns `[0]`; here the `Rat` convention `x / 0 = 0` gives the same
value.) -/
def linspace (stop : Rat) (n : Int) : Except GenErr (List Rat) :=
  if n < 0 then .error .linspaceErr
  else .ok ((List.range n.toNat).map (fun (i : Nat) => (i : Rat) * (stop / ((n.toNat : Rat) - 1))))

/-- `pol2cart` (src/acoustic_helpers/__init__.py, lines 216-234):
`x = rho * np.cos(theta)`, `y = rho * np.sin(theta)` elementwise.
The trig kernel is passed in as `npCos` / `npSin`. -/
def pol2cart (npCos npSin : Rat → Rat) (rho theta : List Rat) : List Rat × List Rat :=
  (List.zipWith (fun r t => r * npCos t) rho theta,
   List.zipWith (fun r t => r * npSin t) rho theta)

/-- Zip the four column arrays of the output DataFrame into rows. -/
def zip4Rows : List String → List Rat → List Rat → List Rat → List PrintRow
  | a :: as, x :: xs, y :: ys, z :: zs => ⟨a, x, y, z⟩ :: zip4Rows as xs ys zs
  | _, _, _, _ => []

/-- `generate_acousticprint` (src/acoustic_helpers/__init__.py, lines
270-380): type checks, the `theta` grid over `[0, 48π]`, then per category
the three rho series, their polar-to-Cartesian images, and the column-wise
assembly with the zero `plane` series.  `npCos`, `npSin`, `npPi` stand for
`np.cos`, `np.sin`, `np.pi`. -/
def generate_acousticprint (npCos npSin : Rat → Rat) (npPi : Rat)
    (data : Features) (points : PyInt) (category : String) : Except GenErr (List PrintRow) :=
  match points with
  | .notInt => .error GenErr.typeErr
  | .int n =>
    match linspace (48 * npPi) n with
    | .error e => .error e
    | .ok theta =>
      let plane : List Rat := theta.map (fun _ => 0)
      if category = "dynamics" then
        let valenceRho := theta.map (fun t => data.tempo * npCos (5 * t * data.valence) + 1)
        let energyRho := theta.map (fun t => data.tempo * npCos (5 * t * data.energy) + 1)
        let danceRho := theta.map (fun t => data.tempo * npCos (5 * t * data.danceability) + 1)
        let xyV := pol2cart npCos npSin valenceRho theta
        let xyE := pol2cart npCos npSin energyRho theta
        let xyD := pol2cart npCos npSin danceRho theta
        .ok (zip4Rows
          (List.replicate n.toNat "Valence" ++ List.replicate n.toNat "Energy" ++
            List.replicate n.toNat "Danceability")
          (xyV.1 ++ plane ++ xyD.2)
          (xyV.2 ++ xyE.1 ++ plane)
          (plane ++ xyE.2 ++ xyD.1))
      else if category = "articulation" then
        match norm_tempo data.tempo with
        | .error e => .error e
        | .ok nt =>
          let acousticRho := theta.map (fun t =>
            nt * (npSin (2 * t * data.speechiness) + npCos (3 * t * data.acousticness)))
          let instrumentalRho := theta.map (fun t =>
            nt * (npSin (2 * t * data.speechiness) + npCos (3 * t * data.instrumentalness)))
          let speechRho := theta.map (fun t =>
            nt * (npSin (2 * t * data.speechiness) + npCos (3 * t * data.speechiness)))
          let xyA := pol2cart npCos npSin acousticRho theta
          let xyI := pol2cart npCos npSin instrumentalRho theta
          let xyS := pol2cart npCos npSin speechRho theta
          .ok (zip4Rows
            (List.replicate n.toNat "Acousticness" ++ List.replicate n.toNat "Instrumentalness" ++
              List.replicate n.toNat "Speechinees")
            (xyA.1 ++ plane ++ xyS.2)
            (xyA.2 ++ xyI.1 ++ plane)
            (plane ++ xyI.2 ++ xyS.1))
      else .error GenErr.catErr

/-- `generate_fingerprint` (src/1_Home.py, lines 101-211) has a body
identical to `generate_acousticprint`, so it is embedded as the same
function. -/
def generate_fingerprint := @generate_acousticprint

/-- Pointwise view of `zip4Rows`: entry `i` exists iff all four columns
have an entry `i`, and then combines them. -/
theorem zip4Rows_get? (as : List String) (xs ys zs : List Rat) (i : Nat) :
    (zip4Rows as xs ys zs).get? i =
      match as.get? i, xs.get? i, ys.get? i, zs.get? i with
      | some a, some x, some y, some z => some ⟨a, x, y, z⟩
      | _, _, _, _ => none := by
  induction as generalizing xs ys zs i with
  | nil => cases i <;> simp [zip4Rows]
  | cons a as ih =>
    cases xs with
    | nil => cases i <;> simp [zip4Rows]
    | cons x xs =>
      cases ys with
      | nil => cases i <;> simp [zip4Rows]
      | cons y ys =>
        cases zs with
        | nil => cases i <;> simp [zip4Rows]
        | cons z zs =>
          cases i with
          | zero => simp [zip4Rows]
          | succ j => simpa [zip4Rows] using ih xs ys zs j

/-- Length of `zip4Rows` when the four columns have equal lengths. -/
theorem zip4Rows_length (as : List String) (xs ys zs : List Rat)
    (h1 : xs.length = as.length) (h2 : ys.length = as.length) (h3 : zs.length = as.length) :
    (zip4Rows as xs ys zs).length = as.length := by
  induction as generalizing xs ys zs with
  | nil =>
    cases xs with
    | nil => cases ys <;> cases zs <;> simp [zip4Rows]
    | cons x xs => simp at h1
  | cons a as ih =>
    cases xs with
    | nil => simp at h1
    | cons x xs =>
      cases ys with
      | nil => simp at h2
      | cons y ys =>
        cases zs with
        | nil => simp at h3
        | cons z zs =>
          simp only [zip4Rows, List.length_cons]
          rw [ih xs ys zs (by simpa using h1) (by simpa using h2) (by simpa using h3)]

/-- `get?` on `List.replicate`. -/
theorem replicate_get? {α : Type} (a : α) : ∀ (n i : Nat),
    (List.replicate n a).get? i = if i < n then some a else none
  | 0, _ => by simp
  | n + 1, 0 => by simp [List.replicate]
  | n + 1, i + 1 => by
    simp only [List.replicate, List.get?]
    rw [replicate_get? a n i]
    by_cases h : i < n
    · rw [if_pos h, if_pos (by omega)]
    · rw [if_neg h, if_neg (by omega)]

/-- `get?` on a map over `List.range`. -/
theorem rangeMap_get? {α : Type} (g : Nat → α) (n i : Nat) :
    ((List.range n).map g).get? i = if i < n then some (g i) else none := by
  by_cases h : i < n
  · rw [List.get?_map, List.get?_range h, if_pos h]
    rfl
  · rw [List.get?_map, if_neg h, List.get?_eq_none.mpr (by simpa using not_lt.mp h)]
    rfl

/-- The theta grid: `theta[i] = i * (48π / (points - 1))`. -/
def thetaAt (npPi : Rat) (n : Nat) (i : Nat) : Rat :=
  (i : Rat) * ((48 * npPi) / ((n : Rat) - 1))

/-- A series sampled on the theta grid. -/
def gridMap (npPi : Rat) (n : Nat) (g : Rat → Rat) : List Rat :=
  (List.range n).map (fun i => g (thetaAt npPi n i))

/-- The dynamics rho formula `tempo * cos(5 * theta * feature) + 1`. -/
def dynRho (npCos : Rat → Rat) (tempo featVal t : Rat) : Rat :=
  tempo * npCos (5 * t * featVal) + 1

/-- `linspace` succeeds on a nonnegative count and produces the theta grid. -/
theorem linspace_ok (npPi : Rat) (n : Int) (hn : 0 ≤ n) :
    linspace (48 * npPi) n = .ok ((List.range n.toNat).map (thetaAt npPi n.toNat)) := by
  unfold linspace thetaAt
  rw [if_neg (not_lt.mpr hn)]

/-- The dynamics branch of `generate_acousticprint`, written with the
column arrays in sampled form. -/
theorem generate_dynamics_eq (npCos npSin : Rat → Rat) (npPi : Rat) (f : Features)
    (n : Int) (hn : 0 ≤ n) :
    generate_acousticprint npCos npSin npPi f (.int n) "dynamics" =
      .ok (zip4Rows
        (List.replicate n.toNat "Valence" ++ List.replicate n.toNat "Energy" ++
          List.replicate n.toNat "Danceability")
        (gridMap npPi n.toNat (fun t => dynRho npCos f.tempo f.valence t * npCos t) ++
          gridMap npPi n.toNat (fun _ => 0) ++
          gridMap npPi n.toNat (fun t => dynRho npCos f.tempo f.danceability t * npSin t))
        (gridMap npPi n.toNat (fun t => dynRho npCos f.tempo f.valence t * npSin t) ++
          gridMap npPi n.toNat (fun t => dynRho npCos f.tempo f.energy t * npCos t) ++
          gridMap npPi n.toNat (fun _ => 0))
        (gridMap npPi n.toNat (fun _ => 0) ++
          gridMap npPi n.toNat (fun t => dynRho npCos f.tempo f.energy t * npSin t) ++
          gridMap npPi n.toNat (fun t => dynRho npCos f.tempo f.danceability t * npCos t))) := by
  have hl := linspace_ok npPi n hn
  simp only [generate_acousticprint, hl, gridMap, dynRho, pol2cart,
    List.zipWith_map_left, List.zipWith_map_right, List.zipWith_same,
    List.map_map, Function.comp_def, if_pos rfl, if_true]

/-- Index into the first block of a three-block replicate concatenation. -/
theorem rep3_left {α : Type} (a b c : α) (N i : Nat) (hi : i < N) :
    (List.replicate N a ++ List.replicate N b ++ List.replicate N c).get? i = some a := by
  rw [List.get?_append (by simp only [List.length_append, List.length_replicate]; omega),
    List.get?_append (by simp only [List.length_replicate]; omega),
    replicate_get?, if_pos hi]

/-- Index into the second block of a three-block replicate concatenation. -/
theorem rep3_mid {α : Type} (a b c : α) (N i : Nat) (hi : i < N) :
    (List.replicate N a ++ List.replicate N b ++ List.replicate N c).get? (N + i) = some b := by
  rw [List.get?_append (by simp only [List.length_append, List.length_replicate]; omega),
    List.get?_append_right (by simp only [List.length_replicate]; omega)]
  simp only [List.length_replicate, Nat.add_sub_cancel_left]
  rw [replicate_get?, if_pos hi]

/-- Index into the third block of a three-block replicate concatenation. -/
theorem rep3_right {α : Type} (a b c : α) (N i : Nat) (hi : i < N) :
    (List.replicate N a ++ List.replicate N b ++ List.replicate N c).get? (2 * N + i) = some c := by
  rw [List.get?_append_right (by simp only [List.length_append, List.length_replicate]; omega)]
  simp only [List.length_append, List.length_replicate]
  rw [show 2 * N + i - (N + N) = i from by omega, replicate_get?, if_pos hi]

/-- Index into the first block of a three-block grid concatenation. -/
theorem gm3_left (npPi : Rat) (N i : Nat) (hi : i < N) (g1 g2 g3 : Rat → Rat) :
    (gridMap npPi N g1 ++ gridMap npPi N g2 ++ gridMap npPi N g3).get? i
      = some (g1 (thetaAt npPi N i)) := by
  rw [List.get?_append (by
        simp only [List.length_append, gridMap, List.length_map, List.length_range]; omega),
    List.get?_append (by simp only [gridMap, List.length_map, List.length_range]; omega)]
  rw [gridMap, rangeMap_get?, if_pos hi]

/-- Index into the second block of a three-block grid concatenation. -/
theorem gm3_mid (npPi : Rat) (N i : Nat) (hi : i < N) (g1 g2 g3 : Rat → Rat) :
    (gridMap npPi N g1 ++ gridMap npPi N g2 ++ gridMap npPi N g3).get? (N + i)
      = some (g2 (thetaAt npPi N i)) := by
  rw [List.get?_append (by
        simp only [List.length_append, gridMap, List.length_map, List.length_range]; omega),
    List.get?_append_right (by simp only [gridMap, List.length_map, List.length_range]; omega)]
  simp only [gridMap, List.length_map, List.length_range, Nat.add_sub_cancel_left]
  rw [rangeMap_get?, if_pos hi]

/-- Index into the third block of a three-block grid concatenation. -/
theorem gm3_right (npPi : Rat) (N i : Nat) (hi : i < N) (g1 g2 g3 : Rat → Rat) :
    (gridMap npPi N g1 ++ gridMap npPi N g2 ++ gridMap npPi N g3).get? (2 * N + i)
      = some (g3 (thetaAt npPi N i)) := by
  rw [List.get?_append_right (by
        simp only [List.length_append, gridMap, List.length_map, List.length_range]; omega)]
  simp only [List.length_append, gridMap, List.length_map, List.length_range]
  rw [show 2 * N + i - (N + N) = i from by omega, rangeMap_get?, if_pos hi]

/-- **C6.** For every valid dynamics input the output is a flat sequence of
`3 * points` rows, grouped Valence / Energy / Danceability (each block
`points` long), the first block carrying `(X = x1, Y = y1, Z = 0)`, the
second `(X = 0, Y = x2, Z = y2)` and the third `(X = y3, Y = 0, Z = x3)`,
where `(xk, yk)` is the polar-to-Cartesian image of the k-th rho series on
the theta grid. -/
theorem dynamics_fingerprint_shape (npCos npSin : Rat → Rat) (npPi : Rat) (f : Features)
    (n : Int) (hn : 0 < n) :
    ∃ rows, generate_acousticprint npCos npSin npPi f (.int n) "dynamics" = .ok rows ∧
      rows.length = 3 * n.toNat ∧
      (∀ i, i < n.toNat →
        rows.get? i = some ⟨"Valence",
          dynRho npCos f.tempo f.valence (thetaAt npPi n.toNat i) * npCos (thetaAt npPi n.toNat i),
          dynRho npCos f.tempo f.valence (thetaAt npPi n.toNat i) * npSin (thetaAt npPi n.toNat i),
          0⟩ ∧
        rows.get? (n.toNat + i) = some ⟨"Energy", 0,
          dynRho npCos f.tempo f.energy (thetaAt npPi n.toNat i) * npCos (thetaAt npPi n.toNat i),
          dynRho npCos f.tempo f.energy (thetaAt npPi n.toNat i) * npSin (thetaAt npPi n.toNat i)⟩ ∧
        rows.get? (2 * n.toNat + i) = some ⟨"Danceability",
          dynRho npCos f.tempo f.danceability (thetaAt npPi n.toNat i) * npSin (thetaAt npPi n.toNat i),
          0,
          dynRho npCos f.tempo f.danceability (thetaAt npPi n.toNat i) * npCos (thetaAt npPi n.toNat i)⟩) := by
  refine ⟨_, generate_dynamics_eq npCos npSin npPi f n hn.le, ?_, ?_⟩
  · rw [zip4Rows_length] <;>
      (simp only [List.length_append, List.length_replicate, gridMap,
        List.length_map, List.length_range]
       try omega)
  · intro i hi
    refine ⟨?_, ?_, ?_⟩
    · rw [zip4Rows_get?, rep3_left _ _ _ _ _ hi, gm3_left _ _ _ hi, gm3_left _ _ _ hi,
        gm3_left _ _ _ hi]
    · rw [zip4Rows_get?, rep3_mid _ _ _ _ _ hi, gm3_mid _ _ _ hi, gm3_mid _ _ _ hi,
        gm3_mid _ _ _ hi]
    · rw [zip4Rows_get?, rep3_right _ _ _ _ _ hi, gm3_right _ _ _ hi, gm3_right _ _ _ hi,
        gm3_right _ _ _ hi]

/-- **C6 witness.** The shape theorem instantiated at `points = 1500` (so
`3 * 1500 = 4500` rows) with a concrete trig kernel and feature vector. -/
theorem dynamics_fingerprint_shape_witness :
    (0 : Int) < 1500 ∧
    ∃ rows, generate_acousticprint (fun _ => 1) (fun _ => 0) 3 ⟨1,1,1,1,1,1,1,120⟩
        (.int 1500) "dynamics" = .ok rows ∧
      rows.length = 3 * (1500 : Int).toNat ∧
      (∀ i, i < (1500 : Int).toNat →
        rows.get? i = some ⟨"Valence",
          dynRho (fun _ => 1) 120 1 (thetaAt 3 (1500 : Int).toNat i) * 1,
          dynRho (fun _ => 1) 120 1 (thetaAt 3 (1500 : Int).toNat i) * 0,
          0⟩ ∧
        rows.get? ((1500 : Int).toNat + i) = some ⟨"Energy", 0,
          dynRho (fun _ => 1) 120 1 (thetaAt 3 (1500 : Int).toNat i) * 1,
          dynRho (fun _ => 1) 120 1 (thetaAt 3 (1500 : Int).toNat i) * 0⟩ ∧
        rows.get? (2 * (1500 : Int).toNat + i) = some ⟨"Danceability",
          dynRho (fun _ => 1) 120 1 (thetaAt 3 (1500 : Int).toNat i) * 0,
          0,
          dynRho (fun _ => 1) 120 1 (thetaAt 3 (1500 : Int).toNat i) * 1⟩) :=
  ⟨by norm_num,
    dynamics_fingerprint_shape (fun _ => 1) (fun _ => 0) 3 ⟨1,1,1,1,1,1,1,120⟩ 1500 (by norm_num)⟩

/-- Whether a generator outcome is an argument-validation failure
(`TypeError` on the argument types or `ValueError` on the category). -/
def isArgErr : Except GenErr (List PrintRow) → Bool
  | .error .typeErr => true
  | .error .catErr => true
  | _ => false

/-- **C4 counterexample.** `points = 0` is an int that is not a positive
integer, yet `generate_acousticprint` does not raise: it returns an empty
table, refuting the claim that a non-positive `points` fails with a
type/value error. -/
theorem generate_points_zero_ok :
    generate_acousticprint (fun _ => 0) (fun _ => 0) 3 ⟨0,0,0,0,0,0,0,0⟩ (.int 0) "dynamics"
      = .ok [] := by
  rfl

/-- **C4 (amended).** The generator checks only that `points` is an int and
that `category` is one of the two variants: a non-int `points` raises a
type error, an unrecognised category (with a representable grid) raises a
value error, but a non-positive int `points` is not rejected — `points = 0`
yields an empty table and a negative `points` fails inside grid generation,
not in argument validation; valid inputs never produce an argument error. -/
theorem generate_validation_amended :
    (∀ (npCos npSin : Rat → Rat) (npPi : Rat) (f : Features) (cat : String),
      generate_acousticprint npCos npSin npPi f .notInt cat = .error .typeErr) ∧
    (∀ (npCos npSin : Rat → Rat) (npPi : Rat) (f : Features) (n : Int) (cat : String),
      0 ≤ n → cat ≠ "dynamics" → cat ≠ "articulation" →
      generate_acousticprint npCos npSin npPi f (.int n) cat = .error .catErr) ∧
    (∀ (npCos npSin : Rat → Rat) (npPi : Rat) (f : Features) (n : Int) (cat : String),
      n < 0 →
      generate_acousticprint npCos npSin npPi f (.int n) cat = .error .linspaceErr) ∧
    (generate_acousticprint (fun _ => 0) (fun _ => 0) 3 ⟨0,0,0,0,0,0,0,0⟩ (.int 0) "dynamics"
      = .ok []) ∧
    (∀ (npCos npSin : Rat → Rat) (npPi : Rat) (f : Features) (n : Int) (cat : String),
      0 ≤ n → (cat = "dynamics" ∨ cat = "articulation") →
      isArgErr (generate_acousticprint npCos npSin npPi f (.int n) cat) = false) := by
  refine ⟨?_, ?_, ?_, generate_points_zero_ok, ?_⟩
  · intro npCos npSin npPi f cat
    rfl
  · intro npCos npSin npPi f n cat hn h1 h2
    simp only [generate_acousticprint, linspace_ok npPi n hn, if_neg h1, if_neg h2]
  · intro npCos npSin npPi f n cat hn
    simp only [generate_acousticprint, linspace]
    rw [if_pos hn]
  · intro npCos npSin npPi f n cat hn hcat
    rcases hcat with h | h
    · subst h
      rw [generate_dynamics_eq npCos npSin npPi f n hn]
      rfl
    · subst h
      simp only [generate_acousticprint, linspace_ok npPi n hn, if_true]
      cases hnt : norm_tempo f.tempo with
      | error e =>
        unfold norm_tempo at hnt
        by_cases hc : f.tempo ≤ MIN_TEMPO ∨ MAX_TEMPO < f.tempo
        · rw [if_pos hc] at hnt
          cases hnt
          rfl
        · rw [if_neg hc] at hnt
          cases hnt
      | ok nt => rfl

/-- **C4 witness.** The universally quantified clauses of the amended
validation theorem discharged at concrete arguments. -/
theorem generate_validation_amended_witness :
    (generate_acousticprint (fun _ => 0) (fun _ => 0) 3 ⟨0,0,0,0,0,0,0,0⟩ .notInt "dynamics"
      = .error .typeErr) ∧
    (generate_acousticprint (fun _ => 0) (fun _ => 0) 3 ⟨0,0,0,0,0,0,0,0⟩ (.int 5) "bogus"
      = .error .catErr) ∧
    (generate_acousticprint (fun _ => 0) (fun _ => 0) 3 ⟨0,0,0,0,0,0,0,0⟩ (.int (-1)) "dynamics"
      = .error .linspaceErr) ∧
    (isArgErr (generate_acousticprint (fun _ => 0) (fun _ => 0) 3 ⟨0,0,0,0,0,0,0,0⟩
      (.int 5) "dynamics") = false) :=
  ⟨generate_validation_amended.1 _ _ _ _ _,
    generate_validation_amended.2.1 _ _ _ _ 5 "bogus" (by norm_num) (by decide) (by decide),
    generate_validation_amended.2.2.1 _ _ _ _ (-1) "dynamics" (by norm_num),
    generate_validation_amended.2.2.2.2 _ _ _ _ 5 "dynamics" (by norm_num) (Or.inl rfl)⟩

/-- **C10.** The dynamics variant never consults the tempo normaliser: for
every feature vector — tempo included, even out-of-domain values such as 0
— the dynamics fingerprint is produced, while the articulation variant on
an out-of-domain tempo fails with the domain error raised by `norm_tempo`. -/
theorem dynamics_vs_articulation_tempo (npCos npSin : Rat → Rat) (npPi : Rat) (f : Features)
    (n : Int) (hn : 0 ≤ n) (hout : f.tempo ≤ 12.75 ∨ 251.072 < f.tempo) :
    (∃ rows, generate_acousticprint npCos npSin npPi f (.int n) "dynamics" = .ok rows) ∧
    generate_acousticprint npCos npSin npPi f (.int n) "articulation" = .error .domainErr := by
  constructor
  · exact ⟨_, generate_dynamics_eq npCos npSin npPi f n hn⟩
  · have hnt : norm_tempo f.tempo = .error .domainErr := by
      unfold norm_tempo MIN_TEMPO MAX_TEMPO
      rw [if_pos hout]
    simp only [generate_acousticprint, linspace_ok npPi n hn, hnt]
    rw [if_neg (by decide : ¬("articulation" = "dynamics")), if_true]

/-- **C10 witness.** At `tempo = 0` (outside `(12.75, 251.072]`) the
dynamics fingerprint succeeds and the articulation fingerprint raises the
domain error. -/
theorem dynamics_vs_articulation_tempo_witness :
    (∃ rows, generate_acousticprint (fun _ => 1) (fun _ => 0) 3 ⟨0,0,0,0,0,0,0,0⟩
        (.int 4) "dynamics" = .ok rows) ∧
    generate_acousticprint (fun _ => 1) (fun _ => 0) 3 ⟨0,0,0,0,0,0,0,0⟩
        (.int 4) "articulation" = .error .domainErr :=
  dynamics_vs_articulation_tempo (fun _ => 1) (fun _ => 0) 3 ⟨0,0,0,0,0,0,0,0⟩ 4
    (by norm_num) (Or.inl (by norm_num))

/-- Errors of the recommendation pipeline of src/pages/3_Album.py:
sklearn's `cosine_distances` rejects an empty sample array,
`np.argpartition` rejects an out-of-bounds `kth`, and `.iloc` rejects an
out-of-range position. -/
inductive RecErr where
  | emptyInput
  | kthOutOfBounds
  | indexError
deriving DecidableEq, Repr

/-- One row of `albums_by_genre`: album id, genre, and the feature vector
used for similarity (the seven bounded descriptors, after `Genre`, `Tempo`,
`Duration`, `id`, `Title`, `Artist` are dropped). -/
structure AlbumRow where
  id : Nat
  genre : String
  stats : List Rat
deriving DecidableEq, Repr

/-- Swap two positions of the index array (numpy's `SWAP(SORTEE(i),
SORTEE(j))`); out-of-range positions leave the array unchanged. -/
def lswap (t : List Nat) (i j : Nat) : List Nat :=
  match t.get? i, t.get? j with
  | some a, some b => (t.set i b).set j a
  | _, _ => t

/-- `v[IDX(i)]`: the value at sort position `i` of the index array. -/
def vAt (v : List Rat) (t : List Nat) (i : Nat) : Rat :=
  v.getD (t.getD i 0) 0

/-- The up-scan of numpy's unguarded partition:
`do ll++; while (v[IDX(ll)] < pivot)`, fuel-bounded. -/
def scanUp (v : List Rat) (t : List Nat) (pivot : Rat) : Nat → Nat → Nat
  | 0, i => i
  | fuel + 1, i => if vAt v t i < pivot then scanUp v t pivot fuel (i + 1) else i

/-- The down-scan of numpy's unguarded partition:
`do hh--; while (pivot < v[IDX(hh)])`, fuel-bounded. -/
def scanDown (v : List Rat) (t : List Nat) (pivot : Rat) : Nat → Nat → Nat
  | 0, i => i
  | fuel + 1, i => if pivot < vAt v t i then scanDown v t pivot fuel (i - 1) else i

/-- numpy's `UNGUARDED_PARTITION` on the index array: scan from both ends,
swap out-of-place pairs, stop when the scans cross; returns the final
array and the crossing positions `(ll, hh)`. -/
def ugp (v : List Rat) (pivot : Rat) : Nat → List Nat → Nat → Nat → (List Nat × Nat × Nat)
  | 0, t, ll, hh => (t, ll, hh)
  | fuel + 1, t, ll, hh =>
    let ll2 := scanUp v t pivot (v.length + 2) (ll + 1)
    let hh2 := scanDown v t pivot (v.length + 2) (hh - 1)
    if hh2 < ll2 then (t, ll2, hh2)
    else ugp v pivot fuel (lswap t ll2 hh2) ll2 hh2

/-- numpy's `MEDIAN3_SWAP`: move the max of the three samples to `high`,
the median (pivot) to `low`, and a lower sentinel to `low + 1`. -/
def med3Swap (v : List Rat) (t : List Nat) (low mid high : Nat) : List Nat :=
  let t1 := if vAt v t high < vAt v t mid then lswap t high mid else t
  let t2 := if vAt v t1 high < vAt v t1 low then lswap t1 high low else t1
  let t3 := if vAt v t2 low < vAt v t2 mid then lswap t2 low mid else t2
  if vAt v t3 mid < vAt v t3 (low + 1) then lswap t3 mid (low + 1) else t3

/-- The max scan of numpy's `kth == num - 1` shortcut for inexact types:
`if (!LT(v[k], maxval)) maxidx = k` — the last maximum wins. -/
def maxScanFrom (v : List Rat) (t : List Nat) : Nat → Nat → Nat → Nat
  | 0, _, best => best
  | fuel + 1, k, best =>
    maxScanFrom v t fuel (k + 1) (if vAt v t k < vAt v t best then best else k)

/-- The inner scan of numpy's `DUMBSELECT` selection sort: the first
minimum over the remaining positions wins (`if (v[k] < minval)`). -/
def findMinFrom (v : List Rat) (t : List Nat) : Nat → Nat → Nat → Nat
  | 0, _, best => best
  | fuel + 1, j, best =>
    findMinFrom v t fuel (j + 1) (if vAt v t j < vAt v t best then j else best)

/-- Outer loop of `DUMBSELECT`: for `i in 0..kth`, swap the minimum of the
tail into position `low + i`. -/
def dumbSelectGo (v : List Rat) (low num : Nat) : Nat → Nat → List Nat → List Nat
  | 0, _, t => t
  | steps + 1, i, t =>
    let m := findMinFrom v t (num - i - 1) (low + i + 1) (low + i)
    dumbSelectGo v low num steps (i + 1) (lswap t (low + i) m)

/-- numpy's `DUMBSELECT` on `[low, low + num)` up to relative index `kth`. -/
def dumbSelect (v : List Rat) (t : List Nat) (low num kth : Nat) : List Nat :=
  dumbSelectGo v low num (kth + 1) 0 t

/-- The main introselect loop: median-of-3 pivot, unguarded partition,
pivot swap, and interval narrowing around `kth`; fuel-bounded.  (numpy's
median-of-median5 fallback on pivot-depth exhaustion is not modelled:
with the median-of-3 pivot it is reachable only on adversarial inputs,
none of which are evaluated here.) -/
def isLoop (v : List Rat) (kth : Nat) : Nat → List Nat → Nat → Nat → (List Nat × Nat × Nat)
  | 0, t, low, high => (t, low, high)
  | fuel + 1, t, low, high =>
    if low + 1 < high then
      let mid := low + (high - low) / 2
      let t2 := med3Swap v t low mid high
      let pivot := vAt v t2 low
      let r := ugp v pivot (v.length + 2) t2 (low + 1) high
      let t3 := lswap r.1 low r.2.2
      let high2 := if r.2.2 ≥ kth then r.2.2 - 1 else high
      let low2 := if r.2.2 ≤ kth then r.2.1 else low
      isLoop v kth fuel t3 low2 high2
    else (t, low, high)

/-- numpy's `aintroselect` on doubles (no NaNs), acting on the index
array `tosort = range(n)`: the `kth < 3` dumb-select shortcut, the
`kth == num - 1` max-scan shortcut for inexact types, else the
median-of-3 quickselect loop with the final two-element fixup. -/
def introselect (v : List Rat) (kth : Nat) : List Nat :=
  let n := v.length
  let t0 := List.range n
  if kth < 3 then dumbSelect v t0 0 n kth
  else if kth = n - 1 then
    lswap t0 kth (maxScanFrom v t0 (n - 1) 1 0)
  else
    let r := isLoop v kth n t0 0 (n - 1)
    if r.2.2 = r.2.1 + 1 ∧ vAt v r.1 r.2.2 < vAt v r.1 r.2.1 then
      lswap r.1 r.2.2 r.2.1
    else r.1

/-- `np.argpartition(v, kth)`: validates `kth` against the array length,
then runs introselect on the index array. -/
def argpartition (v : List Rat) (kth : Nat) : Except RecErr (List Nat) :=
  if v.length ≤ kth then .error .kthOutOfBounds
  else .ok (introselect v kth)

/-- `recs_details_df.iloc[positions]`: select the album ids at the given
row positions, failing on an out-of-range position. -/
def ilocIds (part : List AlbumRow) : List Nat → Except RecErr (List Nat)
  | [] => .ok []
  | i :: is =>
    match part.get? i with
    | none => .error .indexError
    | some c =>
      match ilocIds part is with
      | .error e => .error e
      | .ok rest => .ok (c.id :: rest)

/-- The per-genre recommendation of src/pages/3_Album.py (lines 189-208):
cosine distances of the genre partition against the target (sklearn
rejects an empty partition), `np.argpartition(cos_dis, 3)[:3]`, then the
id lookup.  The metric is passed in as `dist`. -/
def recommendGenre (dist : List Rat → List Rat → Rat) (target : List Rat)
    (part : List AlbumRow) : Except RecErr (List Nat) :=
  if part.length = 0 then .error .emptyInput
  else
    match argpartition (part.map (fun c => dist c.stats target)) 3 with
    | .error e => .error e
    | .ok idxs => ilocIds part (idxs.take 3)

/-- Modelled from the spec: `write_recs` is imported from
`acoustic_helpers` but absent from the sources; per the spec it emits a
recommendation row only if its id is not already in the shared
de-duplication dict and records every emitted id there.  Returns the
emitted ids (in order) and the updated dict. -/
def writeRecs (seen : List Nat) : List Nat → (List Nat × List Nat)
  | [] => ([], seen)
  | i :: rest =>
    if i ∈ seen then writeRecs seen rest
    else
      let p := writeRecs (i :: seen) rest
      (i :: p.1, p.2)

/-- The per-genre loop of the Album page's recommendation section: filter
the candidate table to the genre's partition, recommend, and thread the
de-duplication dict through `write_recs`. -/
def sessionGo (dist : List Rat → List Rat → Rat) (candidates : List AlbumRow)
    (target : List Rat) (seen : List Nat) :
    List String → Except RecErr (List (String × List Nat))
  | [] => .ok []
  | g :: gs =>
    let part := candidates.filter (fun a => a.genre = g)
    match recommendGenre dist target part with
    | .error e => .error e
    | .ok recs =>
      let p := writeRecs seen recs
      match sessionGo dist candidates target p.2 gs with
      | .error e => .error e
      | .ok rest => .ok ((g, p.1) :: rest)

/-- One recommendation session of the Album page: the SQL query already
excludes the target album (`WHERE ... Ab.id<>{id}`), modelled as the
filter on candidates, then the genre loop starting from an empty
de-duplication dict. -/
def runSession (dist : List Rat → List Rat → Rat) (albums : List AlbumRow)
    (targetId : Nat) (target : List Rat) (genres : List String) :
    Except RecErr (List (String × List Nat)) :=
  sessionGo dist (albums.filter (fun a => a.id ≠ targetId)) target [] genres

/-- `lswap` preserves the length of the index array. -/
theorem lswap_length (t : List Nat) (i j : Nat) : (lswap t i j).length = t.length := by
  unfold lswap
  cases hi : t.get? i <;> cases hj : t.get? j <;> simp [List.length_set]

/-- `lswap` introduces no new members. -/
theorem lswap_mem (t : List Nat) (i j x : Nat) (hx : x ∈ lswap t i j) : x ∈ t := by
  unfold lswap at hx
  cases hi : t.get? i with
  | none => rw [hi] at hx; exact hx
  | some a =>
    cases hj : t.get? j with
    | none => rw [hi, hj] at hx; exact hx
    | some b =>
      rw [hi, hj] at hx
      have ha : a ∈ t := List.get?_mem hi
      have hb : b ∈ t := List.get?_mem hj
      rcases List.mem_or_eq_of_mem_set hx with hx2 | hx2
      · rcases List.mem_or_eq_of_mem_set hx2 with hx3 | hx3
        · exact hx3
        · exact hx3 ▸ hb
      · exact hx2 ▸ ha

/-- `ugp` preserves the length of the index array. -/
theorem ugp_length (v : List Rat) (pivot : Rat) :
    ∀ (fuel : Nat) (t : List Nat) (ll hh : Nat), (ugp v pivot fuel t ll hh).1.length = t.length := by
  intro fuel
  induction fuel with
  | zero => intro t ll hh; rfl
  | succ n ih =>
    intro t ll hh
    unfold ugp
    dsimp only
    split
    · rfl
    · rw [ih, lswap_length]

/-- `ugp` introduces no new members. -/
theorem ugp_mem (v : List Rat) (pivot : Rat) :
    ∀ (fuel : Nat) (t : List Nat) (ll hh : Nat) (x : Nat),
      x ∈ (ugp v pivot fuel t ll hh).1 → x ∈ t := by
  intro fuel
  induction fuel with
  | zero => intro t ll hh x hx; exact hx
  | succ n ih =>
    intro t ll hh x hx
    unfold ugp at hx
    dsimp only at hx
    split at hx
    · exact hx
    · exact lswap_mem _ _ _ _ (ih _ _ _ _ hx)

/-- `med3Swap` preserves the length of the index array. -/
theorem med3Swap_length (v : List Rat) (t : List Nat) (low mid high : Nat) :
    (med3Swap v t low mid high).length = t.length := by
  unfold med3Swap
  dsimp only
  split <;> split <;> split <;> split <;> simp [lswap_length]

/-- `med3Swap` introduces no new members. -/
theorem med3Swap_mem (v : List Rat) (t : List Nat) (low mid high x : Nat)
    (hx : x ∈ med3Swap v t low mid high) : x ∈ t := by
  unfold med3Swap at hx
  dsimp only at hx
  split at hx <;> split at hx <;> split at hx <;> split at hx <;>
    repeat first
      | exact hx
      | exact lswap_mem _ _ _ _ hx
      | exact lswap_mem _ _ _ _ (lswap_mem _ _ _ _ hx)
      | exact lswap_mem _ _ _ _ (lswap_mem _ _ _ _ (lswap_mem _ _ _ _ hx))
      | exact lswap_mem _ _ _ _ (lswap_mem _ _ _ _ (lswap_mem _ _ _ _ (lswap_mem _ _ _ _ hx)))

/-- `dumbSelectGo` preserves the length of the index array. -/
theorem dumbSelectGo_length (v : List Rat) (low num : Nat) :
    ∀ (steps i : Nat) (t : List Nat), (dumbSelectGo v low num steps i t).length = t.length := by
  intro steps
  induction steps with
  | zero => intro i t; rfl
  | succ n ih =>
    intro i t
    unfold dumbSelectGo
    rw [ih, lswap_length]

/-- `dumbSelectGo` introduces no new members. -/
theorem dumbSelectGo_mem (v : List Rat) (low num : Nat) :
    ∀ (steps i : Nat) (t : List Nat) (x : Nat),
      x ∈ dumbSelectGo v low num steps i t → x ∈ t := by
  intro steps
  induction steps with
  | zero => intro i t x hx; exact hx
  | succ n ih =>
    intro i t x hx
    unfold dumbSelectGo at hx
    exact lswap_mem _ _ _ _ (ih _ _ _ hx)

/-- `isLoop` preserves the length of the index array. -/
theorem isLoop_length (v : List Rat) (kth : Nat) :
    ∀ (fuel : Nat) (t : List Nat) (low high : Nat),
      (isLoop v kth fuel t low high).1.length = t.length := by
  intro fuel
  induction fuel with
  | zero => intro t low high; rfl
  | succ n ih =>
    intro t low high
    unfold isLoop
    dsimp only
    split
    · rw [ih, lswap_length, ugp_length, med3Swap_length]
    · rfl

/-- `isLoop` introduces no new members. -/
theorem isLoop_mem (v : List Rat) (kth : Nat) :
    ∀ (fuel : Nat) (t : List Nat) (low high : Nat) (x : Nat),
      x ∈ (isLoop v kth fuel t low high).1 → x ∈ t := by
  intro fuel
  induction fuel with
  | zero => intro t low high x hx; exact hx
  | succ n ih =>
    intro t low high x hx
    unfold isLoop at hx
    dsimp only at hx
    split at hx
    · exact med3Swap_mem _ _ _ _ _ _ (ugp_mem _ _ _ _ _ _ _ (lswap_mem _ _ _ _ (ih _ _ _ _ hx)))
    · exact hx

/-- `introselect` returns an index array of the input's length. -/
theorem introselect_length (v : List Rat) (kth : Nat) :
    (introselect v kth).length = v.length := by
  unfold introselect
  dsimp only
  split
  · rw [dumbSelect, dumbSelectGo_length, List.length_range]
  · split
    · rw [lswap_length, List.length_range]
    · split
      · rw [lswap_length, isLoop_length, List.length_range]
      · rw [isLoop_length, List.length_range]

/-- Every entry of the `introselect` index array is a valid position. -/
theorem introselect_mem (v : List Rat) (kth x : Nat) (hx : x ∈ introselect v kth) :
    x < v.length := by
  have hrange : x ∈ List.range v.length := by
    unfold introselect at hx
    dsimp only at hx
    split at hx
    · exact dumbSelectGo_mem _ _ _ _ _ _ _ hx
    · split at hx
      · exact lswap_mem _ _ _ _ hx
      · split at hx
        · exact isLoop_mem _ _ _ _ _ _ _ (lswap_mem _ _ _ _ hx)
        · exact isLoop_mem _ _ _ _ _ _ _ hx
  exact List.mem_range.mp hrange

/-- `ilocIds` success: every returned id comes from a row of the partition. -/
theorem ilocIds_mem (part : List AlbumRow) :
    ∀ (idxs : List Nat) (ids : List Nat), ilocIds part idxs = .ok ids →
      ∀ x ∈ ids, ∃ c ∈ part, c.id = x := by
  intro idxs
  induction idxs with
  | nil =>
    intro ids h x hx
    cases h
    cases hx
  | cons i is ih =>
    intro ids h x hx
    unfold ilocIds at h
    cases hgi : part.get? i with
    | none => rw [hgi] at h; cases h
    | some c =>
      rw [hgi] at h
      cases hrest : ilocIds part is with
      | error e => rw [hrest] at h; cases h
      | ok rest =>
        rw [hrest] at h
        cases h
        rcases List.mem_cons.mp hx with hx2 | hx2
        · exact ⟨c, List.get?_mem hgi, hx2.symm⟩
        · exact ih rest hrest x hx2

/-- `ilocIds` success: as many ids as requested positions. -/
theorem ilocIds_length (part : List AlbumRow) :
    ∀ (idxs : List Nat) (ids : List Nat), ilocIds part idxs = .ok ids →
      ids.length = idxs.length := by
  intro idxs
  induction idxs with
  | nil =>
    intro ids h
    cases h
    rfl
  | cons i is ih =>
    intro ids h
    unfold ilocIds at h
    cases hgi : part.get? i with
    | none => rw [hgi] at h; cases h
    | some c =>
      rw [hgi] at h
      cases hrest : ilocIds part is with
      | error e => rw [hrest] at h; cases h
      | ok rest =>
        rw [hrest] at h
        cases h
        simp [ih rest hrest]

/-- `ilocIds` succeeds whenever every requested position is in range. -/
theorem ilocIds_total (part : List AlbumRow) :
    ∀ (idxs : List Nat), (∀ i ∈ idxs, i < part.length) →
      ∃ ids, ilocIds part idxs = .ok ids := by
  intro idxs
  induction idxs with
  | nil => intro _; exact ⟨[], rfl⟩
  | cons i is ih =>
    intro hall
    have hi : i < part.length := hall i (List.mem_cons_self i is)
    have hc : part.get? i = some (part.get ⟨i, hi⟩) := List.get?_eq_get hi
    obtain ⟨rest, hrest⟩ := ih (fun j hj => hall j (List.mem_cons_of_mem i hj))
    refine ⟨(part.get ⟨i, hi⟩).id :: rest, ?_⟩
    unfold ilocIds
    rw [hc, hrest]

/-- Key comparison claimed by the spec: ascending distance, ties broken by
ascending candidate id. -/
def specLeKey (p q : Nat × Rat) : Bool :=
  decide (p.2 < q.2) || (decide (p.2 = q.2) && decide (p.1 ≤ q.1))

/-- Insertion step of the claimed (stable) ordering. -/
def insertKey (p : Nat × Rat) : List (Nat × Rat) → List (Nat × Rat)
  | [] => [p]
  | q :: rest => if specLeKey p q then p :: q :: rest else q :: insertKey p rest

/-- Insertion sort by the claimed key. -/
def sortKeys : List (Nat × Rat) → List (Nat × Rat)
  | [] => []
  | p :: rest => insertKey p (sortKeys rest)

/-- The behaviour C1 claims for the recommender (written from the spec, to
be compared against `recommendGenre`): the `k = 3` candidates of smallest
distance, listed in ascending distance order with ties broken by candidate
id ascending. -/
def specTop3 (dist : List Rat → List Rat → Rat) (target : List Rat)
    (part : List AlbumRow) : List Nat :=
  ((sortKeys (part.map (fun c => (c.id, dist c.stats target)))).take 3).map (fun p => p.1)

/-- Success characterisation of the per-genre recommender: exactly three
ids, all drawn from the partition. -/
theorem recommendGenre_ok (dist : List Rat → List Rat → Rat) (target : List Rat)
    (part : List AlbumRow) (out : List Nat)
    (h : recommendGenre dist target part = .ok out) :
    out.length = 3 ∧ ∀ x ∈ out, ∃ c ∈ part, c.id = x := by
  unfold recommendGenre at h
  split at h
  · cases h
  · cases harg : argpartition (part.map fun c => dist c.stats target) 3 with
    | error e => rw [harg] at h; cases h
    | ok idxs =>
      rw [harg] at h
      unfold argpartition at harg
      split at harg
      · cases harg
      · cases harg
        rename_i hlen
        constructor
        · rw [ilocIds_length part _ out h]
          simp only [List.length_take, introselect_length, List.length_map]
          simp only [List.length_map, not_le] at hlen
          omega
        · exact ilocIds_mem part _ out h

/-- Value view of `lswap` at valid positions: `i` shows `j`'s value, `j`
shows `i`'s, every other position is untouched. -/
theorem lswap_vAt (v : List Rat) (t : List Nat) (i j p : Nat)
    (hi : i < t.length) (hj : j < t.length) :
    vAt v (lswap t i j) p =
      if p = i then vAt v t j else if p = j then vAt v t i else vAt v t p := by
  have key : (lswap t i j).getD p 0 =
      if p = i then t.getD j 0 else if p = j then t.getD i 0 else t.getD p 0 := by
    unfold lswap
    rw [List.get?_eq_get hi, List.get?_eq_get hj]
    dsimp only
    by_cases hpj : p = j
    · subst hpj
      rw [List.getD_eq_get?, List.get?_set_eq_of_lt _ (by simp [hj])]
      by_cases hpi : p = i
      · subst hpi
        rw [if_pos rfl, List.getD_eq_get?, List.get?_eq_get hj]
        try rfl
      · rw [if_neg hpi, if_pos rfl, List.getD_eq_get?, List.get?_eq_get hi]
        try rfl
    · rw [List.getD_eq_get?, List.get?_set_ne _ _ (fun h => hpj h.symm)]
      by_cases hpi : p = i
      · subst hpi
        rw [List.get?_set_eq_of_lt _ hi, if_pos rfl, List.getD_eq_get?, List.get?_eq_get hj]
        try rfl
      · rw [List.get?_set_ne _ _ (fun h => hpi h.symm), if_neg hpi, if_neg hpj, List.getD_eq_get?]
  unfold vAt
  rw [key]
  by_cases hpi : p = i
  · rw [if_pos hpi, if_pos hpi]
  · rw [if_neg hpi, if_neg hpi]
    by_cases hpj : p = j
    · rw [if_pos hpj, if_pos hpj]
    · rw [if_neg hpj, if_neg hpj]

/-- Replacing a valid position's element and re-consing the old element in
front is a permutation. -/
theorem set_cons_perm : ∀ (xs : List Nat) (m x b : Nat),
    xs.get? m = some b → (b :: xs.set m x).Perm (x :: xs) := by
  intro xs
  induction xs with
  | nil => intro m x b h; cases h
  | cons y rest ih =>
    intro m x b h
    cases m with
    | zero =>
      cases h
      exact List.Perm.swap x y rest
    | succ m =>
      have h2 : rest.get? m = some b := h
      have p1 : (b :: y :: rest.set m x).Perm (y :: b :: rest.set m x) :=
        List.Perm.swap y b _
      have p2 : (y :: b :: rest.set m x).Perm (y :: x :: rest) :=
        List.Perm.cons y (ih m x b h2)
      have p3 : (y :: x :: rest).Perm (x :: y :: rest) := List.Perm.swap x y rest
      exact (p1.trans p2).trans p3

/-- The double-`set` of a swap permutes the list. -/
theorem setSwap_perm : ∀ (t : List Nat) (i j a b : Nat),
    t.get? i = some a → t.get? j = some b → ((t.set i b).set j a).Perm t := by
  intro t
  induction t with
  | nil => intro i j a b h; cases h
  | cons y rest ih =>
    intro i j a b hi hj
    cases i with
    | zero =>
      cases hi
      cases j with
      | zero =>
        cases hj
        simp
      | succ m =>
        have h2 : rest.get? m = some b := hj
        simpa using set_cons_perm rest m y b h2
    | succ k =>
      cases j with
      | zero =>
        cases hj
        have h2 : rest.get? k = some a := hi
        simpa using set_cons_perm rest k y a h2
      | succ m =>
        have h1 : rest.get? k = some a := hi
        have h2 : rest.get? m = some b := hj
        exact List.Perm.cons y (ih k m a b h1 h2)

/-- `lswap` permutes the index array. -/
theorem lswap_perm (t : List Nat) (i j : Nat) : (lswap t i j).Perm t := by
  unfold lswap
  cases hi : t.get? i with
  | none => exact List.Perm.refl t
  | some a =>
    cases hj : t.get? j with
    | none => exact List.Perm.refl t
    | some b => exact setSwap_perm t i j a b hi hj

/-- Left boundary invariant of introselect: every index-array position
before `low` holds a value no larger than any position from `low` on
(within the array length `n`). -/
def OutLow (v : List Rat) (n low : Nat) (t : List Nat) : Prop :=
  ∀ i j, i < low → low ≤ j → j < n → vAt v t i ≤ vAt v t j

/-- Right boundary invariant of introselect: every position beyond `high`
holds a value no smaller than any position up to `high`. -/
def OutHigh (v : List Rat) (n high : Nat) (t : List Nat) : Prop :=
  ∀ i j, i ≤ high → high < j → j < n → vAt v t i ≤ vAt v t j

/-- The selection postcondition at `kth`: positions before `kth` hold
values no larger than positions from `kth` on. -/
def SelDone (v : List Rat) (n kth : Nat) (t : List Nat) : Prop :=
  ∀ i j, i < kth → kth ≤ j → j < n → vAt v t i ≤ vAt v t j

/-- Swapping two positions at or after `low` preserves `OutLow`. -/
theorem OutLow_lswap (v : List Rat) (n low : Nat) (t : List Nat) (p q : Nat)
    (hp : low ≤ p) (hq : low ≤ q) (hpn : p < t.length) (hqn : q < t.length)
    (hlen : t.length = n) (h : OutLow v n low t) : OutLow v n low (lswap t p q) := by
  intro i j hi hj hjn
  rw [lswap_vAt v t p q i hpn hqn, lswap_vAt v t p q j hpn hqn]
  rw [if_neg (by omega : ¬ i = p), if_neg (by omega : ¬ i = q)]
  by_cases hjp : j = p
  · rw [if_pos hjp]
    exact h i q hi hq (by omega)
  · rw [if_neg hjp]
    by_cases hjq : j = q
    · rw [if_pos hjq]
      exact h i p hi hp (by omega)
    · rw [if_neg hjq]
      exact h i j hi hj hjn

/-- Swapping two positions at or before `high` preserves `OutHigh`. -/
theorem OutHigh_lswap (v : List Rat) (n high : Nat) (t : List Nat) (p q : Nat)
    (hp : p ≤ high) (hq : q ≤ high) (hpn : p < t.length) (hqn : q < t.length)
    (h : OutHigh v n high t) : OutHigh v n high (lswap t p q) := by
  intro i j hi hj hjn
  rw [lswap_vAt v t p q i hpn hqn, lswap_vAt v t p q j hpn hqn]
  rw [if_neg (by omega : ¬ j = p), if_neg (by omega : ¬ j = q)]
  by_cases hip : i = p
  · rw [if_pos hip]
    exact h q j hq hj hjn
  · rw [if_neg hip]
    by_cases hiq : i = q
    · rw [if_pos hiq]
      exact h p j hp hj hjn
    · rw [if_neg hiq]
      exact h i j hi hj hjn

/-- Swapping two positions strictly before `kth` preserves `SelDone`. -/
theorem SelDone_lswap_lt (v : List Rat) (n kth : Nat) (t : List Nat) (p q : Nat)
    (hp : p < kth) (hq : q < kth) (hpn : p < t.length) (hqn : q < t.length)
    (h : SelDone v n kth t) : SelDone v n kth (lswap t p q) := by
  intro i j hi hj hjn
  rw [lswap_vAt v t p q i hpn hqn, lswap_vAt v t p q j hpn hqn]
  rw [if_neg (by omega : ¬ j = p), if_neg (by omega : ¬ j = q)]
  by_cases hip : i = p
  · rw [if_pos hip]
    exact h q j hq hj hjn
  · rw [if_neg hip]
    by_cases hiq : i = q
    · rw [if_pos hiq]
      exact h p j hp hj hjn
    · rw [if_neg hiq]
      exact h i j hi hj hjn

/-- Swapping two positions at or after `kth` preserves `SelDone`. -/
theorem SelDone_lswap_ge (v : List Rat) (n kth : Nat) (t : List Nat) (p q : Nat)
    (hp : kth ≤ p) (hq : kth ≤ q) (hpn : p < t.length) (hqn : q < t.length)
    (hlen : t.length = n)
    (h : SelDone v n kth t) : SelDone v n kth (lswap t p q) := by
  intro i j hi hj hjn
  rw [lswap_vAt v t p q i hpn hqn, lswap_vAt v t p q j hpn hqn]
  rw [if_neg (by omega : ¬ i = p), if_neg (by omega : ¬ i = q)]
  by_cases hjp : j = p
  · rw [if_pos hjp]
    exact h i q hi hq (by omega)
  · rw [if_neg hjp]
    by_cases hjq : j = q
    · rw [if_pos hjq]
      exact h i p hi hp (by omega)
    · rw [if_neg hjq]
      exact h i j hi hj hjn

/-- A guarded swap preserves any property the unconditional swap
preserves. -/
theorem ite_lswap_pres (P : List Nat → Prop) (c : Prop) [Decidable c]
    (t : List Nat) (p q : Nat) (h : P t → P (lswap t p q)) (hP : P t) :
    P (if c then lswap t p q else t) := by
  split
  · exact h hP
  · exact hP

/-- `med3Swap` only swaps positions inside `[low, high]`, so it preserves
any predicate preserved by such swaps. -/
theorem med3Swap_pres (v : List Rat) (t : List Nat) (low mid high : Nat)
    (P : List Nat → Prop)
    (hswap : ∀ t' p q, low ≤ p → p ≤ high → low ≤ q → q ≤ high →
      P t' → P (lswap t' p q))
    (hmid1 : low ≤ mid) (hmid2 : mid ≤ high) (hlh : low + 1 ≤ high)
    (hP : P t) : P (med3Swap v t low mid high) := by
  unfold med3Swap
  dsimp only
  refine ite_lswap_pres P _ _ _ _
    (hswap _ _ _ (by omega) (by omega) (by omega) (by omega)) ?_
  refine ite_lswap_pres P _ _ _ _
    (hswap _ _ _ (by omega) (by omega) (by omega) (by omega)) ?_
  refine ite_lswap_pres P _ _ _ _
    (hswap _ _ _ (by omega) (by omega) (by omega) (by omega)) ?_
  exact ite_lswap_pres P _ _ _ _
    (hswap _ _ _ (by omega) (by omega) (by omega) (by omega)) hP

/-- `scanUp` stops at the first position (from `start`) with value at
least the pivot, provided some such position lies within the fuel; every
skipped position is strictly below the pivot. -/
theorem scanUp_spec (v : List Rat) (t : List Nat) (pivot : Rat) :
    ∀ (fuel start : Nat),
      (∃ s, start ≤ s ∧ s < start + fuel + 1 ∧ pivot ≤ vAt v t s) →
      start ≤ scanUp v t pivot fuel start ∧
      pivot ≤ vAt v t (scanUp v t pivot fuel start) ∧
      ∀ p, start ≤ p → p < scanUp v t pivot fuel start → vAt v t p < pivot := by
  intro fuel
  induction fuel with
  | zero =>
    intro start hex
    obtain ⟨s, h1, h2, h3⟩ := hex
    have hs : s = start := by omega
    subst hs
    unfold scanUp
    exact ⟨Nat.le_refl _, h3, fun p hp1 hp2 => absurd hp1 (by omega)⟩
  | succ f ih =>
    intro start hex
    unfold scanUp
    by_cases hc : vAt v t start < pivot
    · rw [if_pos hc]
      obtain ⟨s, h1, h2, h3⟩ := hex
      have hs : s ≠ start := by
        intro h
        rw [h] at h3
        exact absurd h3 (not_le.mpr hc)
      obtain ⟨hr1, hr2, hr3⟩ := ih (start + 1) ⟨s, by omega, by omega, h3⟩
      refine ⟨by omega, hr2, fun p hp1 hp2 => ?_⟩
      rcases Nat.eq_or_lt_of_le hp1 with h | h
      · rw [← h]
        exact hc
      · exact hr3 p (by omega) hp2
    · rw [if_neg hc]
      exact ⟨Nat.le_refl _, not_lt.mp hc, fun p hp1 hp2 => absurd hp1 (by omega)⟩

/-- `scanDown` stops at the first position (from `start`, going down) with
value at most the pivot, provided some such position lies within the fuel;
every skipped position is strictly above the pivot. -/
theorem scanDown_spec (v : List Rat) (t : List Nat) (pivot : Rat) :
    ∀ (fuel start : Nat),
      (∃ s, s ≤ start ∧ start < s + fuel + 1 ∧ vAt v t s ≤ pivot) →
      scanDown v t pivot fuel start ≤ start ∧
      vAt v t (scanDown v t pivot fuel start) ≤ pivot ∧
      ∀ p, scanDown v t pivot fuel start < p → p ≤ start → pivot < vAt v t p := by
  intro fuel
  induction fuel with
  | zero =>
    intro start hex
    obtain ⟨s, h1, h2, h3⟩ := hex
    have hs : s = start := by omega
    subst hs
    unfold scanDown
    exact ⟨Nat.le_refl _, h3, fun p hp1 hp2 => absurd hp2 (by omega)⟩
  | succ f ih =>
    intro start hex
    unfold scanDown
    by_cases hc : pivot < vAt v t start
    · rw [if_pos hc]
      obtain ⟨s, h1, h2, h3⟩ := hex
      have hs : s ≠ start := by
        intro h
        rw [h] at h3
        exact absurd h3 (not_le.mpr hc)
      have hst : 1 ≤ start := by omega
      obtain ⟨hr1, hr2, hr3⟩ := ih (start - 1) ⟨s, by omega, by omega, h3⟩
      refine ⟨by omega, hr2, fun p hp1 hp2 => ?_⟩
      rcases Nat.eq_or_lt_of_le hp2 with h | h
      · rw [h]
        exact hc
      · exact hr3 p hp1 (by omega)
    · rw [if_neg hc]
      exact ⟨Nat.le_refl _, not_lt.mp hc, fun p hp1 hp2 => absurd hp1 (by omega)⟩

/-- Full specification of numpy's unguarded partition on `[low+1, high]`:
given a pivot with sentinels (values `≤ pivot` up to `ll`, values
`≥ pivot` from `hh` up), it terminates with crossed scan positions
`hh' < ll'` inside the interval, everything left of `ll'` at most the
pivot and everything right of `hh'` at least the pivot, while preserving
any predicate `P` stable under swaps inside `[low+1, high]`. -/
theorem ugp_spec (v : List Rat) (pivot : Rat) (low high : Nat)
    (P : List Nat → Prop)
    (hswap : ∀ t' p q, low + 1 ≤ p → p ≤ high → low + 1 ≤ q → q ≤ high →
      P t' → P (lswap t' p q)) :
    ∀ (fuel : Nat) (t : List Nat) (ll hh : Nat),
      t.length = v.length → P t →
      low + 1 ≤ ll → ll ≤ hh → hh ≤ high → high < v.length →
      (ll < hh ∨ (low + 1 < ll ∧ hh < high)) →
      (∀ p, low + 1 ≤ p → p ≤ ll → vAt v t p ≤ pivot) →
      (∀ p, hh ≤ p → p ≤ high → pivot ≤ vAt v t p) →
      hh - ll < fuel →
      (ugp v pivot fuel t ll hh).1.length = v.length ∧
      P (ugp v pivot fuel t ll hh).1 ∧
      low + 1 ≤ (ugp v pivot fuel t ll hh).2.2 ∧
      (ugp v pivot fuel t ll hh).2.2 < (ugp v pivot fuel t ll hh).2.1 ∧
      (ugp v pivot fuel t ll hh).2.1 ≤ high ∧
      (∀ p, low + 1 ≤ p → p < (ugp v pivot fuel t ll hh).2.1 →
        vAt v (ugp v pivot fuel t ll hh).1 p ≤ pivot) ∧
      (∀ p, (ugp v pivot fuel t ll hh).2.2 < p → p ≤ high →
        pivot ≤ vAt v (ugp v pivot fuel t ll hh).1 p) := by
  intro fuel
  induction fuel with
  | zero =>
    intro t ll hh _ _ _ _ _ _ _ _ _ hfuel
    omega
  | succ f ih =>
    intro t ll hh hlen hP hll hllhh hhh hhigh hdisj hleft hright hfuel
    unfold ugp
    dsimp only
    set ll2 := scanUp v t pivot (v.length + 2) (ll + 1) with hll2def
    set hh2 := scanDown v t pivot (v.length + 2) (hh - 1) with hhh2def
    have hsup : ∃ s, ll + 1 ≤ s ∧ s ≤ high ∧ pivot ≤ vAt v t s := by
      rcases hdisj with hlt | ⟨hgt, hlt2⟩
      · exact ⟨hh, by omega, hhh, hright hh (Nat.le_refl _) hhh⟩
      · exact ⟨hh + 1, by omega, by omega, hright (hh + 1) (by omega) (by omega)⟩
    obtain ⟨su, hsu1, hsu2, hsu3⟩ := hsup
    obtain ⟨hu1, hu2, hu3⟩ :=
      scanUp_spec v t pivot (v.length + 2) (ll + 1) ⟨su, hsu1, by omega, hsu3⟩
    have hsdown : ∃ s, low + 1 ≤ s ∧ s ≤ hh - 1 ∧ vAt v t s ≤ pivot := by
      rcases hdisj with hlt | ⟨hgt, hlt2⟩
      · exact ⟨ll, hll, by omega, hleft ll hll (Nat.le_refl _)⟩
      · exact ⟨ll - 1, by omega, by omega, hleft (ll - 1) (by omega) (by omega)⟩
    obtain ⟨sd, hsd1, hsd2, hsd3⟩ := hsdown
    obtain ⟨hd1, hd2, hd3⟩ :=
      scanDown_spec v t pivot (v.length + 2) (hh - 1) ⟨sd, hsd2, by omega, hsd3⟩
    have hll2su : ll2 ≤ su := by
      by_contra hcon
      exact absurd hsu3 (not_le.mpr (hu3 su hsu1 (by omega)))
    have hll2high : ll2 ≤ high := le_trans hll2su hsu2
    have hsdhh2 : sd ≤ hh2 := by
      by_contra hcon
      exact absurd hsd3 (not_le.mpr (hd3 sd (by omega) hsd2))
    have hhh2low : low + 1 ≤ hh2 := le_trans hsd1 hsdhh2
    have hleft2 : ∀ p, low + 1 ≤ p → p < ll2 → vAt v t p ≤ pivot := by
      intro p h1 h2
      by_cases hp : p ≤ ll
      · exact hleft p h1 hp
      · exact le_of_lt (hu3 p (by omega) h2)
    have hright2 : ∀ p, hh2 < p → p ≤ high → pivot ≤ vAt v t p := by
      intro p h1 h2
      by_cases hp : hh ≤ p
      · exact hright p hp h2
      · exact le_of_lt (hd3 p h1 (by omega))
    by_cases hbr : hh2 < ll2
    · rw [if_pos hbr]
      exact ⟨hlen, hP, hhh2low, hbr, hll2high, hleft2, hright2⟩
    · rw [if_neg hbr]
      have hll2n : ll2 < t.length := by omega
      have hhh2n : hh2 < t.length := by omega
      have hlen' : (lswap t ll2 hh2).length = v.length := by
        rw [lswap_length]
        exact hlen
      have hP' : P (lswap t ll2 hh2) :=
        hswap t ll2 hh2 (by omega) hll2high (by omega) (by omega) hP
      have hvt' : ∀ p, vAt v (lswap t ll2 hh2) p =
          if p = ll2 then vAt v t hh2 else if p = hh2 then vAt v t ll2
          else vAt v t p :=
        fun p => lswap_vAt v t ll2 hh2 p hll2n hhh2n
      have hleft' : ∀ p, low + 1 ≤ p → p ≤ ll2 → vAt v (lswap t ll2 hh2) p ≤ pivot := by
        intro p h1 h2
        rw [hvt' p]
        by_cases hp : p = ll2
        · rw [if_pos hp]
          exact hd2
        · rw [if_neg hp, if_neg (by omega : ¬ p = hh2)]
          exact hleft2 p h1 (by omega)
      have hright' : ∀ p, hh2 ≤ p → p ≤ high → pivot ≤ vAt v (lswap t ll2 hh2) p := by
        intro p h1 h2
        rw [hvt' p]
        by_cases hpl : p = ll2
        · rw [if_pos hpl]
          have hEq : hh2 = ll2 := by omega
          rw [hEq]
          exact hu2
        · rw [if_neg hpl]
          by_cases hph : p = hh2
          · rw [if_pos hph]
            exact hu2
          · rw [if_neg hph]
            exact hright2 p (by omega) h2
      exact ih (lswap t ll2 hh2) ll2 hh2 hlen' hP' (by omega) (by omega) (by omega)
        hhigh (Or.inr ⟨by omega, by omega⟩) hleft' hright' (by omega)

/-- One conditional compare-and-swap of numpy's `MEDIAN3_SWAP`:
afterwards position `b` holds the smaller and position `a` the larger of
the two values, and no other position changes. -/
theorem condSwap_facts (v : List Rat) (t : List Nat) (a b : Nat)
    (han : a < t.length) (hbn : b < t.length) :
    (if vAt v t a < vAt v t b then lswap t a b else t).length = t.length ∧
    vAt v (if vAt v t a < vAt v t b then lswap t a b else t) b ≤
      vAt v (if vAt v t a < vAt v t b then lswap t a b else t) a ∧
    vAt v t a ≤ vAt v (if vAt v t a < vAt v t b then lswap t a b else t) a ∧
    vAt v t b ≤ vAt v (if vAt v t a < vAt v t b then lswap t a b else t) a ∧
    vAt v (if vAt v t a < vAt v t b then lswap t a b else t) b ≤ vAt v t a ∧
    vAt v (if vAt v t a < vAt v t b then lswap t a b else t) b ≤ vAt v t b ∧
    (∀ x, vAt v t a ≤ x → vAt v t b ≤ x →
      vAt v (if vAt v t a < vAt v t b then lswap t a b else t) a ≤ x) ∧
    (∀ x, x ≤ vAt v t a → x ≤ vAt v t b →
      x ≤ vAt v (if vAt v t a < vAt v t b then lswap t a b else t) b) ∧
    ∀ p, p ≠ a → p ≠ b →
      vAt v (if vAt v t a < vAt v t b then lswap t a b else t) p = vAt v t p := by
  by_cases hc : vAt v t a < vAt v t b
  · have hab : ¬ b = a := by
      intro h
      rw [h] at hc
      exact lt_irrefl _ hc
    rw [if_pos hc]
    have hva : vAt v (lswap t a b) a = vAt v t b := by
      rw [lswap_vAt v t a b a han hbn, if_pos rfl]
    have hvb : vAt v (lswap t a b) b = vAt v t a := by
      rw [lswap_vAt v t a b b han hbn, if_neg hab, if_pos rfl]
    refine ⟨lswap_length t a b, ?_, ?_, ?_, ?_, ?_, ?_, ?_, ?_⟩
    · rw [hva, hvb]
      exact le_of_lt hc
    · rw [hva]
      exact le_of_lt hc
    · rw [hva]
    · rw [hvb]
    · rw [hvb]
      exact le_of_lt hc
    · intro x h1 h2
      rw [hva]
      exact h2
    · intro x h1 h2
      rw [hvb]
      exact h1
    · intro p hp1 hp2
      rw [lswap_vAt v t a b p han hbn, if_neg hp1, if_neg hp2]
  · rw [if_neg hc]
    have hba : vAt v t b ≤ vAt v t a := not_lt.mp hc
    exact ⟨rfl, hba, le_refl _, hba, hba, le_refl _,
      fun x h1 _ => h1, fun x _ h2 => h2, fun p _ _ => rfl⟩

/-- numpy's `MEDIAN3_SWAP` leaves the three-sample median at `low`, a
value at most the pivot at `low + 1` (a scan sentinel), and a value at
least the pivot at `high`. -/
theorem med3Swap_sentinels (v : List Rat) (t : List Nat) (low mid high : Nat)
    (hm1 : low + 1 ≤ mid) (hm2 : mid < high) (hhn : high < t.length) :
    vAt v (med3Swap v t low mid high) (low + 1) ≤
      vAt v (med3Swap v t low mid high) low ∧
    vAt v (med3Swap v t low mid high) low ≤
      vAt v (med3Swap v t low mid high) high := by
  have hln : low < t.length := by omega
  have hl1n : low + 1 < t.length := by omega
  have hmn : mid < t.length := by omega
  obtain ⟨e1len, e1, e1a1, e1a2, e1b1, e1b2, e1mx, e1mn, e1u⟩ :=
    condSwap_facts v t high mid hhn hmn
  set t1 := if vAt v t high < vAt v t mid then lswap t high mid else t with ht1
  obtain ⟨e2len, e2, e2a1, e2a2, e2b1, e2b2, e2mx, e2mn, e2u⟩ :=
    condSwap_facts v t1 high low (by rw [e1len]; exact hhn) (by rw [e1len]; exact hln)
  set t2 := if vAt v t1 high < vAt v t1 low then lswap t1 high low else t1 with ht2
  have f2 : vAt v t2 mid ≤ vAt v t2 high := by
    rw [e2u mid (by omega) (by omega)]
    exact le_trans e1 e2a1
  have hlen2 : t2.length = t.length := by rw [e2len, e1len]
  obtain ⟨e3len, e3, e3a1, e3a2, e3b1, e3b2, e3mx, e3mn, e3u⟩ :=
    condSwap_facts v t2 low mid (by rw [hlen2]; exact hln) (by rw [hlen2]; exact hmn)
  set t3 := if vAt v t2 low < vAt v t2 mid then lswap t2 low mid else t2 with ht3
  have f3 : vAt v t3 low ≤ vAt v t3 high := by
    rw [e3u high (by omega) (by omega)]
    exact e3mx _ e2 f2
  have hlen3 : t3.length = t.length := by rw [e3len, hlen2]
  obtain ⟨e4len, e4, e4a1, e4a2, e4b1, e4b2, e4mx, e4mn, e4u⟩ :=
    condSwap_facts v t3 mid (low + 1) (by rw [hlen3]; exact hmn) (by rw [hlen3]; exact hl1n)
  have hfin : med3Swap v t low mid high =
      if vAt v t3 mid < vAt v t3 (low + 1) then lswap t3 mid (low + 1) else t3 := by
    rw [ht3, ht2, ht1]
    rfl
  rw [hfin]
  have g1 : vAt v (if vAt v t3 mid < vAt v t3 (low + 1) then lswap t3 mid (low + 1) else t3) low =
      vAt v t3 low := e4u low (by omega) (by omega)
  have g2 : vAt v (if vAt v t3 mid < vAt v t3 (low + 1) then lswap t3 mid (low + 1) else t3) high =
      vAt v t3 high := e4u high (by omega) (by omega)
  constructor
  · rw [g1]
    exact le_trans e4b1 e3
  · rw [g1, g2]
    exact f3

/-- The introselect main-loop invariant: the index array keeps full
length, `high` stays in range, and either `kth` lies in the active window
with both boundary invariants holding, or the selection is already
settled and the window is strictly on one side of `kth`. -/
def LoopInv (v : List Rat) (kth : Nat) (t : List Nat) (low high : Nat) : Prop :=
  t.length = v.length ∧ high < v.length ∧
  ((low ≤ kth ∧ kth ≤ high ∧ OutLow v v.length low t ∧ OutHigh v v.length high t) ∨
   (SelDone v v.length kth t ∧ (kth < low ∨ high < kth)))

/-- The introselect main loop preserves `LoopInv` and exits with a window
of width at most one. -/
theorem isLoop_spec (v : List Rat) (kth : Nat) :
    ∀ (fuel : Nat) (t : List Nat) (low high : Nat),
      LoopInv v kth t low high → high - low < fuel →
      LoopInv v kth (isLoop v kth fuel t low high).1
        (isLoop v kth fuel t low high).2.1 (isLoop v kth fuel t low high).2.2 ∧
      ¬ ((isLoop v kth fuel t low high).2.1 + 1 <
          (isLoop v kth fuel t low high).2.2) := by
  intro fuel
  induction fuel with
  | zero =>
    intro t low high hinv hfuel
    exact absurd hfuel (by omega)
  | succ f ih =>
    intro t low high hinv hfuel
    unfold isLoop
    by_cases hguard : low + 1 < high
    case neg =>
      rw [if_neg hguard]
      exact ⟨hinv, hguard⟩
    case pos =>
      rw [if_pos hguard]
      dsimp only
      obtain ⟨hlen, hhn, hbranch⟩ := hinv
      set mid := low + (high - low) / 2 with hmid
      have hm1 : low + 1 ≤ mid := by omega
      have hm2 : mid < high := by omega
      rcases hbranch with ⟨hlk, hkh, hOL, hOH⟩ | ⟨hsd, hout⟩
      · -- active window: kth ∈ [low, high]
        obtain ⟨hlen2, hOL2, hOH2⟩ :=
          med3Swap_pres v t low mid high
            (fun s => s.length = v.length ∧ OutLow v v.length low s ∧
              OutHigh v v.length high s)
            (fun s p q h1 h2 h3 h4 hP => by
              obtain ⟨hl, ho1, ho2⟩ := hP
              have hpn : p < s.length := by omega
              have hqn : q < s.length := by omega
              exact ⟨by rw [lswap_length]; exact hl,
                OutLow_lswap v v.length low s p q h1 h3 hpn hqn hl ho1,
                OutHigh_lswap v v.length high s p q h2 h4 hpn hqn ho2⟩)
            (by omega) (by omega) (by omega) ⟨hlen, hOL, hOH⟩
        obtain ⟨s1, s2⟩ := med3Swap_sentinels v t low mid high (by omega) hm2 (by omega)
        set t2 := med3Swap v t low mid high with ht2
        set pivot := vAt v t2 low with hpiv
        have hswapA : ∀ s p q, low + 1 ≤ p → p ≤ high → low + 1 ≤ q → q ≤ high →
            (s.length = v.length ∧ OutLow v v.length low s ∧
              OutHigh v v.length high s ∧ vAt v s low = pivot) →
            ((lswap s p q).length = v.length ∧ OutLow v v.length low (lswap s p q) ∧
              OutHigh v v.length high (lswap s p q) ∧
              vAt v (lswap s p q) low = pivot) := by
          intro s p q h1 h2 h3 h4 hP
          obtain ⟨hl, ho1, ho2, hpl⟩ := hP
          have hpn : p < s.length := by omega
          have hqn : q < s.length := by omega
          refine ⟨by rw [lswap_length]; exact hl,
            OutLow_lswap v v.length low s p q (by omega) (by omega) hpn hqn hl ho1,
            OutHigh_lswap v v.length high s p q h2 h4 hpn hqn ho2, ?_⟩
          rw [lswap_vAt v s p q low hpn hqn, if_neg (by omega : ¬ low = p),
            if_neg (by omega : ¬ low = q)]
          exact hpl
        obtain ⟨hrlen, hrP, hr1, hr2, hr3, hrleft, hrright⟩ :=
          ugp_spec v pivot low high
            (fun s => s.length = v.length ∧ OutLow v v.length low s ∧
              OutHigh v v.length high s ∧ vAt v s low = pivot)
            hswapA (v.length + 2) t2 (low + 1) high hlen2 ⟨hlen2, hOL2, hOH2, hpiv.symm⟩
            (Nat.le_refl _) (by omega) (Nat.le_refl _) hhn (Or.inl hguard)
            (fun p hp1 hp2 => by
              have hp : p = low + 1 := by omega
              rw [hp]
              exact s1)
            (fun p hp1 hp2 => by
              have hp : p = high := by omega
              rw [hp]
              exact s2)
            (by omega)
        set r := ugp v pivot (v.length + 2) t2 (low + 1) high with hrdef
        obtain ⟨hrlen2, hrOL, hrOH, hrpiv⟩ := hrP
        have hlowr : low < r.1.length := by omega
        have hhhr : r.2.2 < r.1.length := by omega
        have hv3 : ∀ p, vAt v (lswap r.1 low r.2.2) p =
            if p = low then vAt v r.1 r.2.2 else if p = r.2.2 then vAt v r.1 low
            else vAt v r.1 p := fun p => lswap_vAt v r.1 low r.2.2 p hlowr hhhr
        set t3 := lswap r.1 low r.2.2 with ht3
        have len3 : t3.length = v.length := by
          rw [ht3, lswap_length]
          exact hrlen
        have f_left : ∀ p, low ≤ p → p ≤ r.2.2 → vAt v t3 p ≤ pivot := by
          intro p h1 h2
          rw [hv3 p]
          by_cases hpl : p = low
          · rw [if_pos hpl]
            exact hrleft r.2.2 (by omega) (by omega)
          · rw [if_neg hpl]
            by_cases hph : p = r.2.2
            · rw [if_pos hph]
              exact le_of_eq hrpiv
            · rw [if_neg hph]
              exact hrleft p (by omega) (by omega)
        have f_right : ∀ p, r.2.2 ≤ p → p ≤ high → pivot ≤ vAt v t3 p := by
          intro p h1 h2
          rw [hv3 p]
          by_cases hph : p = r.2.2
          · rw [if_neg (by omega : ¬ p = low), if_pos hph]
            exact le_of_eq hrpiv.symm
          · rw [if_neg (by omega : ¬ p = low), if_neg hph]
            exact hrright p (by omega) h2
        have OL3 : OutLow v v.length low t3 := by
          rw [ht3]
          exact OutLow_lswap v v.length low r.1 low r.2.2 (Nat.le_refl _) (by omega)
            hlowr hhhr hrlen hrOL
        have OH3 : OutHigh v v.length high t3 := by
          rw [ht3]
          exact OutHigh_lswap v v.length high r.1 low r.2.2 (by omega) (by omega)
            hlowr hhhr hrOH
        have gap : ∀ p, r.2.2 < p → p < r.2.1 → vAt v t3 p = pivot := by
          intro p h1 h2
          rw [hv3 p, if_neg (by omega : ¬ p = low), if_neg (by omega : ¬ p = r.2.2)]
          exact le_antisymm (hrleft p (by omega) h2) (hrright p h1 (by omega))
        rcases Nat.lt_trichotomy r.2.2 kth with hck | hck | hck
        · -- the pivot landed left of kth: narrow the low side
          rw [if_neg (by omega : ¬ r.2.2 ≥ kth), if_pos (by omega : r.2.2 ≤ kth)]
          by_cases hlk2 : r.2.1 ≤ kth
          · have OL4 : OutLow v v.length r.2.1 t3 := by
              intro i j hi hj hjn
              by_cases hil : i < low
              · exact OL3 i j hil (by omega) hjn
              · by_cases hjh : j ≤ high
                · have hvi : vAt v t3 i ≤ pivot := by
                    by_cases hih : i ≤ r.2.2
                    · exact f_left i (by omega) hih
                    · exact le_of_eq (gap i (by omega) hi)
                  exact le_trans hvi (f_right j (by omega) hjh)
                · exact OH3 i j (by omega) (by omega) hjn
            exact ih t3 r.2.1 high ⟨len3, hhn, Or.inl ⟨hlk2, hkh, OL4, OH3⟩⟩ (by omega)
          · have hsd : SelDone v v.length kth t3 := by
              intro i j hi hj hjn
              by_cases hil : i < low
              · exact OL3 i j hil (by omega) hjn
              · by_cases hjh : j ≤ high
                · have hvi : vAt v t3 i ≤ pivot := by
                    by_cases hih : i ≤ r.2.2
                    · exact f_left i (by omega) hih
                    · exact le_of_eq (gap i (by omega) (by omega))
                  exact le_trans hvi (f_right j (by omega) hjh)
                · exact OH3 i j (by omega) (by omega) hjn
            exact ih t3 r.2.1 high ⟨len3, hhn, Or.inr ⟨hsd, Or.inl (by omega)⟩⟩ (by omega)
        · -- the pivot landed exactly at kth: settled
          rw [if_pos (by omega : r.2.2 ≥ kth), if_pos (by omega : r.2.2 ≤ kth)]
          have hsd : SelDone v v.length kth t3 := by
            intro i j hi hj hjn
            by_cases hil : i < low
            · exact OL3 i j hil (by omega) hjn
            · by_cases hjh : j ≤ high
              · exact le_trans (f_left i (by omega) (by omega))
                  (f_right j (by omega) hjh)
              · exact OH3 i j (by omega) (by omega) hjn
          exact ih t3 r.2.1 (r.2.2 - 1)
            ⟨len3, by omega, Or.inr ⟨hsd, Or.inl (by omega)⟩⟩ (by omega)
        · -- the pivot landed right of kth: narrow the high side
          rw [if_pos (by omega : r.2.2 ≥ kth), if_neg (by omega : ¬ r.2.2 ≤ kth)]
          have OH4 : OutHigh v v.length (r.2.2 - 1) t3 := by
            intro i j hi hj hjn
            by_cases hjh : j ≤ high
            · have hvj : pivot ≤ vAt v t3 j := f_right j (by omega) hjh
              by_cases hil : i < low
              · exact OL3 i j hil (by omega) hjn
              · exact le_trans (f_left i (by omega) (by omega)) hvj
            · exact OH3 i j (by omega) (by omega) hjn
          exact ih t3 low (r.2.2 - 1)
            ⟨len3, by omega, Or.inl ⟨hlk, by omega, OL3, OH4⟩⟩ (by omega)
      · -- already settled: every swap stays on one side of kth
        have hswapB : ∀ s p q, low ≤ p → p ≤ high → low ≤ q → q ≤ high →
            (s.length = v.length ∧ SelDone v v.length kth s) →
            ((lswap s p q).length = v.length ∧
              SelDone v v.length kth (lswap s p q)) := by
          intro s p q h1 h2 h3 h4 hP
          obtain ⟨hl, hs⟩ := hP
          have hpn : p < s.length := by omega
          have hqn : q < s.length := by omega
          refine ⟨by rw [lswap_length]; exact hl, ?_⟩
          rcases hout with ho | ho
          · exact SelDone_lswap_ge v v.length kth s p q (by omega) (by omega)
              hpn hqn hl hs
          · exact SelDone_lswap_lt v v.length kth s p q (by omega) (by omega)
              hpn hqn hs
        obtain ⟨hlen2, hsd2⟩ :=
          med3Swap_pres v t low mid high
            (fun s => s.length = v.length ∧ SelDone v v.length kth s)
            hswapB (by omega) (by omega) (by omega) ⟨hlen, hsd⟩
        obtain ⟨s1, s2⟩ := med3Swap_sentinels v t low mid high (by omega) hm2 (by omega)
        set t2 := med3Swap v t low mid high with ht2
        set pivot := vAt v t2 low with hpiv
        obtain ⟨hrlen, hrP, hr1, hr2, hr3, hrleft, hrright⟩ :=
          ugp_spec v pivot low high
            (fun s => s.length = v.length ∧ SelDone v v.length kth s)
            (fun s p q h1 h2 h3 h4 => hswapB s p q (by omega) h2 (by omega) h4)
            (v.length + 2) t2 (low + 1) high hlen2 ⟨hlen2, hsd2⟩
            (Nat.le_refl _) (by omega) (Nat.le_refl _) hhn (Or.inl hguard)
            (fun p hp1 hp2 => by
              have hp : p = low + 1 := by omega
              rw [hp]
              exact s1)
            (fun p hp1 hp2 => by
              have hp : p = high := by omega
              rw [hp]
              exact s2)
            (by omega)
        set r := ugp v pivot (v.length + 2) t2 (low + 1) high with hrdef
        obtain ⟨hrlen2, hrsd⟩ := hrP
        obtain ⟨len3, hsd3⟩ := hswapB r.1 low r.2.2 (Nat.le_refl _) (by omega)
          (by omega) (by omega) ⟨hrlen, hrsd⟩
        set t3 := lswap r.1 low r.2.2 with ht3
        rcases hout with ho | ho
        · -- kth < low: both updates keep the window right of kth
          rw [if_pos (by omega : r.2.2 ≥ kth), if_neg (by omega : ¬ r.2.2 ≤ kth)]
          exact ih t3 low (r.2.2 - 1)
            ⟨len3, by omega, Or.inr ⟨hsd3, Or.inl ho⟩⟩ (by omega)
        · -- high < kth: both updates keep the window left of kth
          rw [if_neg (by omega : ¬ r.2.2 ≥ kth), if_pos (by omega : r.2.2 ≤ kth)]
          exact ih t3 r.2.1 high
            ⟨len3, hhn, Or.inr ⟨hsd3, Or.inr ho⟩⟩ (by omega)

/-- The `kth == num - 1` max scan returns a position of a maximal value
among the first `k + fuel` positions. -/
theorem maxScanFrom_spec (v : List Rat) (t : List Nat) :
    ∀ (fuel k best : Nat), best < k →
      (∀ p, p < k → vAt v t p ≤ vAt v t best) →
      maxScanFrom v t fuel k best < k + fuel ∧
      ∀ p, p < k + fuel → vAt v t p ≤ vAt v t (maxScanFrom v t fuel k best) := by
  intro fuel
  induction fuel with
  | zero =>
    intro k best hb hall
    unfold maxScanFrom
    exact ⟨by omega, fun p hp => hall p (by omega)⟩
  | succ f ih =>
    intro k best hb hall
    unfold maxScanFrom
    by_cases hc : vAt v t k < vAt v t best
    · rw [if_pos hc]
      obtain ⟨h1, h2⟩ := ih (k + 1) best (by omega) (fun p hp => by
        rcases Nat.lt_or_ge p k with h | h
        · exact hall p h
        · have hpk : p = k := by omega
          rw [hpk]
          exact le_of_lt hc)
      exact ⟨by omega, fun p hp => h2 p (by omega)⟩
    · rw [if_neg hc]
      have hk : vAt v t best ≤ vAt v t k := not_lt.mp hc
      obtain ⟨h1, h2⟩ := ih (k + 1) k (by omega) (fun p hp => by
        rcases Nat.lt_or_ge p k with h | h
        · exact le_trans (hall p h) hk
        · have hpk : p = k := by omega
          rw [hpk])
      exact ⟨by omega, fun p hp => h2 p (by omega)⟩

/-- For `3 ≤ kth < n`, introselect settles the selection: every value at
an index-array position before `kth` is at most every value at a position
from `kth` on. -/
theorem introselect_settled (v : List Rat) (kth : Nat) (h3 : 3 ≤ kth)
    (hk : kth < v.length) : SelDone v v.length kth (introselect v kth) := by
  unfold introselect
  dsimp only
  rw [if_neg (by omega : ¬ kth < 3)]
  by_cases hn1 : kth = v.length - 1
  · rw [if_pos hn1]
    have hlen0 : (List.range v.length).length = v.length := List.length_range _
    obtain ⟨hm1, hm2⟩ := maxScanFrom_spec v (List.range v.length) (v.length - 1) 1 0
      (by omega) (fun p hp => by
        have hp0 : p = 0 := by omega
        rw [hp0])
    set m := maxScanFrom v (List.range v.length) (v.length - 1) 1 0 with hmdef
    intro i j hi hj hjn
    rw [lswap_vAt v (List.range v.length) kth m i (by omega) (by omega),
        lswap_vAt v (List.range v.length) kth m j (by omega) (by omega)]
    rw [if_pos (by omega : j = kth), if_neg (by omega : ¬ i = kth)]
    by_cases him : i = m
    · rw [if_pos him]
      exact hm2 kth (by omega)
    · rw [if_neg him]
      exact hm2 i (by omega)
  · rw [if_neg hn1]
    have hinv0 : LoopInv v kth (List.range v.length) 0 (v.length - 1) := by
      refine ⟨List.length_range _, by omega, Or.inl ⟨by omega, by omega, ?_, ?_⟩⟩
      · intro i j hi hj hjn
        exact absurd hi (by omega)
      · intro i j hi hj hjn
        exact absurd hjn (by omega)
    obtain ⟨⟨hlenr, hhnr, hbr⟩, hexit⟩ :=
      isLoop_spec v kth v.length (List.range v.length) 0 (v.length - 1) hinv0 (by omega)
    set r := isLoop v kth v.length (List.range v.length) 0 (v.length - 1) with hrdef
    rcases hbr with ⟨hlk, hkh, hOL, hOH⟩ | ⟨hsd, hout⟩
    · by_cases hhl : r.2.2 = r.2.1 + 1
      · by_cases hcond : vAt v r.1 r.2.2 < vAt v r.1 r.2.1
        · rw [if_pos ⟨hhl, hcond⟩]
          have hl1 : r.2.2 < r.1.length := by omega
          have hl2 : r.2.1 < r.1.length := by omega
          have hv4 : ∀ p, vAt v (lswap r.1 r.2.2 r.2.1) p =
              if p = r.2.2 then vAt v r.1 r.2.1
              else if p = r.2.1 then vAt v r.1 r.2.2
              else vAt v r.1 p := fun p => lswap_vAt v r.1 r.2.2 r.2.1 p hl1 hl2
          have OL4 : OutLow v v.length r.2.1 (lswap r.1 r.2.2 r.2.1) :=
            OutLow_lswap v v.length r.2.1 r.1 r.2.2 r.2.1 (by omega) (Nat.le_refl _)
              hl1 hl2 hlenr hOL
          have OH4 : OutHigh v v.length r.2.2 (lswap r.1 r.2.2 r.2.1) :=
            OutHigh_lswap v v.length r.2.2 r.1 r.2.2 r.2.1 (Nat.le_refl _) (by omega)
              hl1 hl2 hOH
          have hord : vAt v (lswap r.1 r.2.2 r.2.1) r.2.1 ≤
              vAt v (lswap r.1 r.2.2 r.2.1) r.2.2 := by
            rw [hv4 r.2.1, hv4 r.2.2]
            rw [if_neg (by omega : ¬ r.2.1 = r.2.2), if_pos rfl, if_pos rfl]
            exact le_of_lt hcond
          intro i j hi hj hjn
          rcases (by omega : kth = r.2.1 ∨ kth = r.2.2) with hkc | hkc
          · exact OL4 i j (by omega) (by omega) hjn
          · by_cases hil : i < r.2.1
            · exact OL4 i j hil (by omega) hjn
            · have hieq : i = r.2.1 := by omega
              by_cases hjh : j = r.2.2
              · rw [hieq, hjh]
                exact hord
              · exact OH4 i j (by omega) (by omega) hjn
        · rw [if_neg (fun hand => hcond hand.2)]
          intro i j hi hj hjn
          rcases (by omega : kth = r.2.1 ∨ kth = r.2.2) with hkc | hkc
          · exact hOL i j (by omega) (by omega) hjn
          · by_cases hil : i < r.2.1
            · exact hOL i j hil (by omega) hjn
            · have hieq : i = r.2.1 := by omega
              by_cases hjh : j = r.2.2
              · rw [hieq, hjh]
                exact not_lt.mp hcond
              · exact hOH i j (by omega) (by omega) hjn
      · rw [if_neg (fun hand => hhl hand.1)]
        intro i j hi hj hjn
        by_cases hil : i < r.2.1
        · exact hOL i j hil (by omega) hjn
        · exact absurd hi (by omega)
    · by_cases hfix : r.2.2 = r.2.1 + 1 ∧ vAt v r.1 r.2.2 < vAt v r.1 r.2.1
      · rw [if_pos hfix]
        rcases hout with ho | ho
        · exact SelDone_lswap_ge v v.length kth r.1 r.2.2 r.2.1 (by omega) (by omega)
            (by omega) (by omega) hlenr hsd
        · exact SelDone_lswap_lt v v.length kth r.1 r.2.2 r.2.1 (by omega) (by omega)
            (by omega) (by omega) hsd
      · rw [if_neg hfix]
        exact hsd

/-- `DUMBSELECT` permutes the index array. -/
theorem dumbSelectGo_perm (v : List Rat) (low num : Nat) :
    ∀ (steps i : Nat) (t : List Nat), (dumbSelectGo v low num steps i t).Perm t := by
  intro steps
  induction steps with
  | zero =>
    intro i t
    exact List.Perm.refl t
  | succ st ih =>
    intro i t
    unfold dumbSelectGo
    exact (ih (i + 1) _).trans (lswap_perm t _ _)

/-- The unguarded partition permutes the index array. -/
theorem ugp_perm (v : List Rat) (pivot : Rat) :
    ∀ (fuel : Nat) (t : List Nat) (ll hh : Nat), (ugp v pivot fuel t ll hh).1.Perm t := by
  intro fuel
  induction fuel with
  | zero =>
    intro t ll hh
    exact List.Perm.refl t
  | succ f ih =>
    intro t ll hh
    unfold ugp
    dsimp only
    split
    · exact List.Perm.refl t
    · exact (ih _ _ _).trans (lswap_perm t _ _)

/-- `MEDIAN3_SWAP` permutes the index array. -/
theorem med3Swap_perm (v : List Rat) (t : List Nat) (low mid high : Nat) :
    (med3Swap v t low mid high).Perm t := by
  unfold med3Swap
  dsimp only
  refine ite_lswap_pres (fun s => s.Perm t) _ _ _ _
    (fun h => (lswap_perm _ _ _).trans h) ?_
  refine ite_lswap_pres (fun s => s.Perm t) _ _ _ _
    (fun h => (lswap_perm _ _ _).trans h) ?_
  refine ite_lswap_pres (fun s => s.Perm t) _ _ _ _
    (fun h => (lswap_perm _ _ _).trans h) ?_
  exact ite_lswap_pres (fun s => s.Perm t) _ _ _ _
    (fun h => (lswap_perm _ _ _).trans h) (List.Perm.refl t)

/-- The introselect main loop permutes the index array. -/
theorem isLoop_perm (v : List Rat) (kth : Nat) :
    ∀ (fuel : Nat) (t : List Nat) (low high : Nat),
      (isLoop v kth fuel t low high).1.Perm t := by
  intro fuel
  induction fuel with
  | zero =>
    intro t low high
    exact List.Perm.refl t
  | succ f ih =>
    intro t low high
    unfold isLoop
    split
    · dsimp only
      exact (ih _ _ _).trans ((lswap_perm _ _ _).trans
        ((ugp_perm v _ _ _ _ _).trans (med3Swap_perm v t low _ high)))
    · exact List.Perm.refl t

/-- Introselect returns a permutation of the identity index array. -/
theorem introselect_perm (v : List Rat) (kth : Nat) :
    (introselect v kth).Perm (List.range v.length) := by
  unfold introselect
  dsimp only
  split
  · exact dumbSelectGo_perm v 0 v.length (kth + 1) 0 (List.range v.length)
  · split
    · exact lswap_perm _ _ _
    · split
      · exact (lswap_perm _ _ _).trans (isLoop_perm v kth _ _ _ _)
      · exact isLoop_perm v kth _ _ _ _

/-- Looking up in-range positions through `get?` keeps the length. -/
theorem filterMap_get?_length (l : List AlbumRow) :
    ∀ idxs : List Nat, (∀ i ∈ idxs, i < l.length) →
      (idxs.filterMap l.get?).length = idxs.length := by
  intro idxs
  induction idxs with
  | nil =>
    intro _
    rfl
  | cons i is ih =>
    intro hall
    cases hc : l.get? i with
    | none =>
      have hge := List.get?_eq_none.mp hc
      exact absurd (hall i (List.mem_cons_self i is)) (by omega)
    | some c =>
      rw [List.filterMap_cons_some hc, List.length_cons, List.length_cons,
        ih (fun x hx => hall x (List.mem_cons_of_mem i hx))]

/-- Filtering the full index range through `get?` returns the list
itself. -/
theorem range_filterMap_get? (l : List AlbumRow) :
    (List.range l.length).filterMap l.get? = l := by
  induction l with
  | nil => rfl
  | cons a l ih =>
    rw [List.length_cons, List.range_succ_eq_map,
      List.filterMap_cons_some (rfl : (a :: l).get? 0 = some a), List.filterMap_map]
    have hcomp : ((a :: l).get? ∘ Nat.succ) = l.get? := by
      funext i
      rfl
    rw [hcomp, ih]

/-- `ilocIds` success is exactly `filterMap get?` followed by the id
projection. -/
theorem ilocIds_eq_filterMap (part : List AlbumRow) :
    ∀ (idxs ids : List Nat), ilocIds part idxs = .ok ids →
      ids = (idxs.filterMap part.get?).map AlbumRow.id := by
  intro idxs
  induction idxs with
  | nil =>
    intro ids h
    cases h
    rfl
  | cons i is ih =>
    intro ids h
    unfold ilocIds at h
    cases hc : part.get? i with
    | none =>
      rw [hc] at h
      cases h
    | some c =>
      rw [hc] at h
      cases hrest : ilocIds part is with
      | error e =>
        rw [hrest] at h
        cases h
      | ok rest =>
        rw [hrest] at h
        cases h
        rw [List.filterMap_cons_some hc, List.map_cons, ← ih rest hrest]

/-- Selection characterisation of the per-genre recommender: on success
the output is the ids of three candidates whose distances are at most
those of all remaining candidates, the two groups together permuting the
partition. -/
theorem recommendGenre_top3 (dist : List Rat → List Rat → Rat) (target : List Rat)
    (part : List AlbumRow) (out : List Nat)
    (h : recommendGenre dist target part = .ok out) :
    ∃ sel rest : List AlbumRow,
      sel.length = 3 ∧
      out = sel.map AlbumRow.id ∧
      (sel ++ rest).Perm part ∧
      ∀ c1 ∈ sel, ∀ c2 ∈ rest, dist c1.stats target ≤ dist c2.stats target := by
  unfold recommendGenre at h
  split at h
  · cases h
  · cases harg : argpartition (part.map fun c => dist c.stats target) 3 with
    | error e =>
      rw [harg] at h
      cases h
    | ok idxs =>
      rw [harg] at h
      unfold argpartition at harg
      split at harg
      · cases harg
      · cases harg
        rename_i hlen
        set d := part.map fun c => dist c.stats target with hd
        set t := introselect d 3 with ht
        have hdl : d.length = part.length := by
          rw [hd]
          exact List.length_map _ _
        have h3n : 3 < part.length := by
          rw [hdl] at hlen
          omega
        have htlen : t.length = part.length := by
          rw [ht, introselect_length, hdl]
        have htmem : ∀ i ∈ t, i < part.length := by
          intro i hi
          have hm := introselect_mem d 3 i (ht ▸ hi)
          rw [hdl] at hm
          exact hm
        have hperm : t.Perm (List.range part.length) := by
          have hp := introselect_perm d 3
          rw [hdl] at hp
          exact hp
        have hsd : SelDone d d.length 3 t := introselect_settled d 3 (Nat.le_refl 3) (by omega)
        refine ⟨(t.take 3).filterMap part.get?, (t.drop 3).filterMap part.get?,
          ?_, ?_, ?_, ?_⟩
        · have hall : ∀ i ∈ t.take 3, i < part.length := by
            intro i hi
            have hmem : i ∈ t := by
              rw [← List.take_append_drop 3 t]
              exact List.mem_append_left _ hi
            exact htmem i hmem
          rw [filterMap_get?_length part _ hall, List.length_take, htlen]
          omega
        · exact ilocIds_eq_filterMap part _ out h
        · have hsplit : (t.take 3).filterMap part.get? ++ (t.drop 3).filterMap part.get? =
              t.filterMap part.get? := by
            rw [← List.filterMap_append, List.take_append_drop]
          rw [hsplit]
          have h2 := hperm.filterMap part.get?
          rw [range_filterMap_get? part] at h2
          exact h2
        · intro c1 hc1 c2 hc2
          obtain ⟨i, hi, hieq⟩ := List.mem_filterMap.mp hc1
          obtain ⟨j, hj, hjeq⟩ := List.mem_filterMap.mp hc2
          obtain ⟨a, ha⟩ := List.mem_iff_get?.mp hi
          obtain ⟨b, hb⟩ := List.mem_iff_get?.mp hj
          obtain ⟨halt, -⟩ := List.get?_eq_some.mp ha
          have ha3 : a < 3 := by
            rw [List.length_take] at halt
            omega
          have hta : t.get? a = some i := by
            rw [← List.get?_take ha3]
            exact ha
          have htb : t.get? (3 + b) = some j := by
            rw [← List.get?_drop]
            exact hb
          obtain ⟨hblt, -⟩ := List.get?_eq_some.mp htb
          have hti : t.getD a 0 = i := by
            rw [List.getD_eq_get?, hta]
            try rfl
          have htj : t.getD (3 + b) 0 = j := by
            rw [List.getD_eq_get?, htb]
            try rfl
          have hdi : d.getD i 0 = dist c1.stats target := by
            rw [List.getD_eq_get?, hd, List.get?_map, hieq]
            try rfl
          have hdj : d.getD j 0 = dist c2.stats target := by
            rw [List.getD_eq_get?, hd, List.get?_map, hjeq]
            try rfl
          have hva : vAt d t a = dist c1.stats target := by
            unfold vAt
            rw [hti, hdi]
          have hvb : vAt d t (3 + b) = dist c2.stats target := by
            unfold vAt
            rw [htj, hdj]
          have hle := hsd a (3 + b) ha3 (by omega) (by omega)
          rw [hva, hvb] at hle
          exact hle

/-- **C1 counterexample.** A 4-candidate genre partition with distances
(3, 1, 2, 9): the code returns the three smallest distances but in the
partition's original order (3, 1, 2) — `np.argpartition` with
`kth = n - 1` only moves the maximum — while the claimed ordering
(ascending distance, ties by id) would give (1, 2, 3).  The claim's
required output differs from the code's output. -/
theorem recommend_order_counterexample :
    recommendGenre (fun s _ => s.headD 0) [0]
        [⟨10, "G", [3]⟩, ⟨11, "G", [1]⟩, ⟨12, "G", [2]⟩, ⟨13, "G", [9]⟩] = .ok [10, 11, 12] ∧
    specTop3 (fun s _ => s.headD 0) [0]
        [⟨10, "G", [3]⟩, ⟨11, "G", [1]⟩, ⟨12, "G", [2]⟩, ⟨13, "G", [9]⟩] = [11, 12, 10] ∧
    recommendGenre (fun s _ => s.headD 0) [0]
        [⟨10, "G", [3]⟩, ⟨11, "G", [1]⟩, ⟨12, "G", [2]⟩, ⟨13, "G", [9]⟩]
      ≠ .ok (specTop3 (fun s _ => s.headD 0) [0]
        [⟨10, "G", [3]⟩, ⟨11, "G", [1]⟩, ⟨12, "G", [2]⟩, ⟨13, "G", [9]⟩]) :=
  ⟨by decide, by decide, by decide⟩

/-- **C1 (amended).** A successful per-genre recommendation returns the
ids of the `k = 3` candidates carrying the smallest cosine distances in
the genre partition (`np.argpartition`'s selection contract): the three
selected candidates together with the remaining candidates permute the
partition, and every selected distance is at most every remaining
distance.  The ids however come in the order the partition positions
leave introselect, which is not in general ascending-distance (nor
id-tie-broken); for the spec's 5-candidate example with distances
(0.1, 0.2, 0.05, 0.9, 0.3) — scaled here to (10, 20, 5, 90, 30) — the
returned ids do correspond to distances (5, 10, 20) in ascending order. -/
theorem recommend_top3_amended :
    (∀ (dist : List Rat → List Rat → Rat) (target : List Rat) (part : List AlbumRow)
        (out : List Nat), recommendGenre dist target part = .ok out →
      ∃ sel rest : List AlbumRow,
        sel.length = 3 ∧
        out = sel.map AlbumRow.id ∧
        (sel ++ rest).Perm part ∧
        ∀ c1 ∈ sel, ∀ c2 ∈ rest, dist c1.stats target ≤ dist c2.stats target) ∧
    recommendGenre (fun s _ => s.headD 0) [0]
        [⟨20, "G", [10]⟩, ⟨21, "G", [20]⟩, ⟨22, "G", [5]⟩, ⟨23, "G", [90]⟩, ⟨24, "G", [30]⟩]
      = .ok [22, 20, 21] :=
  ⟨recommendGenre_top3, by decide⟩

/-- **C1 witness.** The universal top-3-selection clause of the amended
theorem discharged at the concrete 5-candidate example. -/
theorem recommend_top3_amended_witness :
    ∃ sel rest : List AlbumRow,
      sel.length = 3 ∧
      ([22, 20, 21] : List Nat) = sel.map AlbumRow.id ∧
      (sel ++ rest).Perm
        [(⟨20, "G", [10]⟩ : AlbumRow), ⟨21, "G", [20]⟩, ⟨22, "G", [5]⟩,
          ⟨23, "G", [90]⟩, ⟨24, "G", [30]⟩] ∧
      ∀ c1 ∈ sel, ∀ c2 ∈ rest, c1.stats.headD 0 ≤ c2.stats.headD 0 :=
  recommend_top3_amended.1 (fun s _ => s.headD 0) [0]
    [⟨20, "G", [10]⟩, ⟨21, "G", [20]⟩, ⟨22, "G", [5]⟩, ⟨23, "G", [90]⟩, ⟨24, "G", [30]⟩]
    [22, 20, 21] recommend_top3_amended.2

/-- **C2 counterexample.** An empty genre partition makes the recommender
raise (sklearn rejects zero samples) instead of returning an empty list,
and a 3-candidate partition (fewer than `k + 1 = 4`) makes
`np.argpartition(cos_dis, 3)` raise `kth out of bounds` instead of
returning all eligible items. -/
theorem recommend_small_partition_counterexample :
    recommendGenre (fun s _ => s.headD 0) [0] ([] : List AlbumRow) = .error .emptyInput ∧
    recommendGenre (fun s _ => s.headD 0) [0]
      [⟨10, "G", [3]⟩, ⟨11, "G", [1]⟩, ⟨12, "G", [2]⟩] = .error .kthOutOfBounds :=
  ⟨by decide, by decide⟩

/-- **C2 (amended).** The per-genre recommendation raises a `ValueError`
whenever the genre partition has at most 3 candidates (the empty partition
included); a partition with at least 4 candidates always yields exactly 3
ids.  Cross-genre exclusion happens only at write time, without
backfilling: in the concrete two-genre session below, genre B's partition
has 5 candidates of which 2 are still unseen, yet B emits nothing because
its top 3 were already emitted for genre A. -/
theorem recommend_small_partition_amended :
    (∀ (dist : List Rat → List Rat → Rat) (target : List Rat) (part : List AlbumRow),
      part.length ≤ 3 → ∃ e, recommendGenre dist target part = .error e) ∧
    (∀ (dist : List Rat → List Rat → Rat) (target : List Rat) (part : List AlbumRow),
      3 < part.length → ∃ out, recommendGenre dist target part = .ok out ∧ out.length = 3) ∧
    runSession (fun s _ => s.headD 0)
      [⟨1, "A", [1]⟩, ⟨2, "A", [2]⟩, ⟨3, "A", [3]⟩, ⟨4, "A", [4]⟩, ⟨0, "A", [0]⟩,
       ⟨1, "B", [1]⟩, ⟨2, "B", [2]⟩, ⟨3, "B", [3]⟩, ⟨5, "B", [5]⟩, ⟨6, "B", [6]⟩]
      0 [0] ["A", "B"] = .ok [("A", [1, 2, 3]), ("B", [])] := by
  refine ⟨?_, ?_, by decide⟩
  · intro dist target part hle
    unfold recommendGenre
    by_cases h0 : part.length = 0
    · rw [if_pos h0]
      exact ⟨.emptyInput, rfl⟩
    · rw [if_neg h0]
      unfold argpartition
      rw [if_pos (by simp only [List.length_map]; omega)]
      exact ⟨.kthOutOfBounds, rfl⟩
  · intro dist target part hgt
    unfold recommendGenre
    rw [if_neg (by omega)]
    unfold argpartition
    rw [if_neg (by simp only [List.length_map]; omega)]
    have hmem : ∀ i ∈ (introselect (part.map fun c => dist c.stats target) 3).take 3,
        i < part.length := by
      intro i hi
      have := introselect_mem _ 3 i (List.mem_of_mem_take hi)
      simpa using this
    obtain ⟨ids, hids⟩ := ilocIds_total part _ hmem
    refine ⟨ids, hids, ?_⟩
    rw [ilocIds_length part _ ids hids]
    simp only [List.length_take, introselect_length, List.length_map]
    omega

/-- **C2 witness.** The two universal clauses of the amended theorem
discharged at a 2-candidate and a 4-candidate partition. -/
theorem recommend_small_partition_amended_witness :
    (∃ e, recommendGenre (fun s _ => s.headD 0) [0]
      [⟨10, "G", [3]⟩, ⟨11, "G", [1]⟩] = .error e) ∧
    (∃ out, recommendGenre (fun s _ => s.headD 0) [0]
      [⟨10, "G", [3]⟩, ⟨11, "G", [1]⟩, ⟨12, "G", [2]⟩, ⟨13, "G", [9]⟩] = .ok out ∧
      out.length = 3) :=
  ⟨recommend_small_partition_amended.1 (fun s _ => s.headD 0) [0]
      [⟨10, "G", [3]⟩, ⟨11, "G", [1]⟩] (by decide),
    recommend_small_partition_amended.2.1 (fun s _ => s.headD 0) [0]
      [⟨10, "G", [3]⟩, ⟨11, "G", [1]⟩, ⟨12, "G", [2]⟩, ⟨13, "G", [9]⟩] (by decide)⟩

/-- Emitted ids of `write_recs` are new (not in the incoming dict) and come
from the recommendation list. -/
theorem writeRecs_emitted (ids : List Nat) : ∀ (seen : List Nat),
    ∀ x ∈ (writeRecs seen ids).1, x ∉ seen ∧ x ∈ ids := by
  induction ids with
  | nil => intro seen x hx; cases hx
  | cons i rest ih =>
    intro seen x hx
    unfold writeRecs at hx
    by_cases hmem : i ∈ seen
    · rw [if_pos hmem] at hx
      obtain ⟨h1, h2⟩ := ih seen x hx
      exact ⟨h1, List.mem_cons_of_mem i h2⟩
    · rw [if_neg hmem] at hx
      dsimp only at hx
      rcases List.mem_cons.mp hx with hx2 | hx2
      · subst hx2
        exact ⟨hmem, List.mem_cons_self _ _⟩
      · obtain ⟨h1, h2⟩ := ih (i :: seen) x hx2
        exact ⟨fun hc => h1 (List.mem_cons_of_mem i hc), List.mem_cons_of_mem i h2⟩

/-- The outgoing dict of `write_recs` holds exactly the incoming dict plus
the emitted ids. -/
theorem writeRecs_seen (ids : List Nat) : ∀ (seen : List Nat) (x : Nat),
    x ∈ (writeRecs seen ids).2 ↔ x ∈ seen ∨ x ∈ (writeRecs seen ids).1 := by
  induction ids with
  | nil => intro seen x; simp [writeRecs]
  | cons i rest ih =>
    intro seen x
    unfold writeRecs
    by_cases hmem : i ∈ seen
    · rw [if_pos hmem]
      exact ih seen x
    · rw [if_neg hmem]
      dsimp only
      rw [ih (i :: seen) x]
      simp only [List.mem_cons]
      tauto

/-- Invariant of the per-genre session loop: every emitted id is new
relative to the incoming dict and names a candidate row, and the emitted
lists are pairwise disjoint along the genre order. -/
theorem sessionGo_inv (dist : List Rat → List Rat → Rat) (candidates : List AlbumRow)
    (target : List Rat) :
    ∀ (genres : List String) (seen : List Nat) (out : List (String × List Nat)),
      sessionGo dist candidates target seen genres = .ok out →
      (∀ p ∈ out, ∀ x ∈ p.2, x ∉ seen ∧ ∃ c ∈ candidates, c.id = x) ∧
      List.Pairwise (fun p q => ∀ x ∈ p.2, x ∉ q.2) out := by
  intro genres
  induction genres with
  | nil =>
    intro seen out h
    cases h
    exact ⟨fun p hp => absurd hp (List.not_mem_nil p), List.Pairwise.nil⟩
  | cons g gs ih =>
    intro seen out h
    unfold sessionGo at h
    dsimp only at h
    cases hrec : recommendGenre dist target (candidates.filter (fun a => a.genre = g)) with
    | error e => rw [hrec] at h; cases h
    | ok recs =>
      rw [hrec] at h
      dsimp only at h
      cases hrest : sessionGo dist candidates target (writeRecs seen recs).2 gs with
      | error e => rw [hrest] at h; cases h
      | ok rest =>
        rw [hrest] at h
        cases h
        obtain ⟨ihmem, ihpw⟩ := ih _ _ hrest
        have hembed : ∀ x ∈ (writeRecs seen recs).1, x ∉ seen ∧ ∃ c ∈ candidates, c.id = x := by
          intro x hx
          obtain ⟨hns, hin⟩ := writeRecs_emitted recs seen x hx
          obtain ⟨c, hc, hcid⟩ := (recommendGenre_ok dist target _ recs hrec).2 x hin
          exact ⟨hns, c, (List.mem_filter.mp hc).1, hcid⟩
        constructor
        · intro p hp x hx
          rcases List.mem_cons.mp hp with hp2 | hp2
          · subst hp2
            exact hembed x hx
          · obtain ⟨hnotseen2, hcand⟩ := ihmem p hp2 x hx
            exact ⟨fun hs => hnotseen2 ((writeRecs_seen recs seen x).mpr (Or.inl hs)), hcand⟩
        · refine List.Pairwise.cons ?_ ihpw
          intro q hq x hx hxq
          obtain ⟨hq1, _⟩ := ihmem q hq x hxq
          exact hq1 ((writeRecs_seen recs seen x).mpr (Or.inr hx))

/-- **C9.** In one recommendation session the target's own id is never
emitted for any genre (the candidate query excludes it), and an id emitted
for an earlier genre is never re-emitted for a later genre (the shared
de-duplication dict threaded through `write_recs`). -/
theorem session_exclusion (dist : List Rat → List Rat → Rat) (albums : List AlbumRow)
    (targetId : Nat) (target : List Rat) (genres : List String)
    (out : List (String × List Nat))
    (h : runSession dist albums targetId target genres = .ok out) :
    (∀ p ∈ out, targetId ∉ p.2) ∧
    List.Pairwise (fun p q => ∀ x ∈ p.2, x ∉ q.2) out := by
  obtain ⟨hmem, hpw⟩ := sessionGo_inv dist _ target genres [] out h
  refine ⟨?_, hpw⟩
  intro p hp hx
  obtain ⟨_, c, hc, hcid⟩ := hmem p hp targetId hx
  have hne := (List.mem_filter.mp hc).2
  simp only [decide_eq_true_eq] at hne
  exact hne hcid

/-- **C9 witness.** The exclusion theorem discharged at a concrete
two-genre session (target id 0, candidates 1-6) that succeeds. -/
theorem session_exclusion_witness :
    (∀ p ∈ [("A", [1, 2, 3]), ("B", ([] : List Nat))], (0 : Nat) ∉ p.2) ∧
    List.Pairwise (fun p q => ∀ x ∈ p.2, x ∉ q.2)
      [("A", [1, 2, 3]), ("B", ([] : List Nat))] :=
  session_exclusion (fun s _ => s.headD 0)
    [⟨1, "A", [1]⟩, ⟨2, "A", [2]⟩, ⟨3, "A", [3]⟩, ⟨4, "A", [4]⟩, ⟨0, "A", [0]⟩,
     ⟨1, "B", [1]⟩, ⟨2, "B", [2]⟩, ⟨3, "B", [3]⟩, ⟨5, "B", [5]⟩, ⟨6, "B", [6]⟩]
    0 [0] ["A", "B"] [("A", [1, 2, 3]), ("B", [])] (by decide)

/-- Bind on `Except` applied to a success, for calculational proofs. -/
theorem exbind_ok {ε α β : Type} (a : α) (f : α → Except ε β) :
    (Except.ok a >>= f : Except ε β) = f a := rfl

/-- The column header of the Songs-page join query (src/pages/2_Songs.py,
lines 165-180), in SELECT order; `Explicit` is last, so it is the column
dropped by `.iloc[:, :-1]`. -/
def songCols : List String :=
  ["Song", "Artist", "Album", "release_date", "num_tracks", "Duration", "Favorites",
   "Listens", "Genre", "Valence", "Energy", "Danceability", "Acousticness",
   "Instrumentalness", "Speechiness", "Liveness", "Tempo", "id", "album_id", "Explicit"]

/-- A well-typed join row of the Songs-page query: one track paired with
one of its genres. -/
structure JoinRow where
  song : String
  artist : String
  album : String
  releaseDate : String
  numTracks : Rat
  duration : Rat
  favorites : Rat
  listens : Rat
  genre : String
  valence : Rat
  energy : Rat
  danceability : Rat
  acousticness : Rat
  instrumentalness : Rat
  speechiness : Rat
  liveness : Rat
  tempo : Rat
  id : Rat
  albumId : Rat
  explicit : Rat
deriving DecidableEq, Repr

/-- The row as it sits in the joined DataFrame, in `songCols` order. -/
def JoinRow.toRow (r : JoinRow) : List Value :=
  [.str r.song, .str r.artist, .str r.album, .str r.releaseDate, .num r.numTracks,
   .num r.duration, .num r.favorites, .num r.listens, .str r.genre, .num r.valence,
   .num r.energy, .num r.danceability, .num r.acousticness, .num r.instrumentalness,
   .num r.speechiness, .num r.liveness, .num r.tempo, .num r.id, .num r.albumId,
   .num r.explicit]

/-- The retention predicate C7 claims (written from the spec): all seven
bounded descriptors inside their inclusive ranges, tempo inside its range,
duration inside the minute-denominated range scaled by 60, and the
explicit flag in the admissible set — all conjoined. -/
def specRetain (s : FilterSpec) (r : JoinRow) : Prop :=
  s.minValence ≤ r.valence ∧ r.valence ≤ s.maxValence ∧
  s.minEnergy ≤ r.energy ∧ r.energy ≤ s.maxEnergy ∧
  s.minDance ≤ r.danceability ∧ r.danceability ≤ s.maxDance ∧
  s.minAcoustics ≤ r.acousticness ∧ r.acousticness ≤ s.maxAcoustics ∧
  s.minInstrument ≤ r.instrumentalness ∧ r.instrumentalness ≤ s.maxInstrument ∧
  s.minSpeech ≤ r.speechiness ∧ r.speechiness ≤ s.maxSpeech ∧
  s.minLive ≤ r.liveness ∧ r.liveness ≤ s.maxLive ∧
  s.minTempo ≤ r.tempo ∧ r.tempo ≤ s.maxTempo ∧
  s.minDuration * 60 ≤ r.duration ∧ r.duration ≤ s.maxDuration * 60 ∧
  r.explicit ∈ s.explicitVals

instance (s : FilterSpec) (r : JoinRow) : Decidable (specRetain s r) := by
  unfold specRetain
  infer_instance

/-- `pure` on `Except`, for calculational proofs. -/
theorem expure {ε α : Type} (a : α) : (pure a : Except ε α) = .ok a := rfl

/-- The boolean form of the retention predicate, with the atoms in the
order and association the source's mask computes them. -/
def specRetainB (s : FilterSpec) (r : JoinRow) : Bool :=
  decide (s.minValence ≤ r.valence) && (decide (r.valence ≤ s.maxValence) && (decide
    (s.minEnergy ≤ r.energy) && (decide (r.energy ≤ s.maxEnergy) && (decide (s.minDance ≤
    r.danceability) && (decide (r.danceability ≤ s.maxDance) && (decide (s.minAcoustics ≤
    r.acousticness) && (decide (r.acousticness ≤ s.maxAcoustics) && (decide (s.minInstrument ≤
    r.instrumentalness) && (decide (r.instrumentalness ≤ s.maxInstrument) && (decide
    (s.minSpeech ≤ r.speechiness) && (decide (r.speechiness ≤ s.maxSpeech) && (decide
    (s.minLive ≤ r.liveness) && (decide (r.liveness ≤ s.maxLive) && (decide (s.minTempo ≤
    r.tempo) && (decide (r.tempo ≤ s.maxTempo) && (decide (s.minDuration * 60 ≤ r.duration) &&
    (decide (r.duration ≤ s.maxDuration * 60) && (decide (r.explicit ∈
    s.explicitVals)))))))))))))))))))

/-- The boolean mask agrees with the spec's retention predicate. -/
theorem specRetainB_eq (s : FilterSpec) (r : JoinRow) :
    specRetainB s r = decide (specRetain s r) := by
  simp [specRetainB, specRetain]

/-- The source's boolean mask, evaluated on a well-typed row, computes
exactly the spec's retention predicate. -/
theorem rowMask_toRow (s : FilterSpec) (r : JoinRow) :
    rowMask songCols s r.toRow = .ok (specRetainB s r) := rfl

/-- The mask over well-typed rows retains exactly the rows satisfying the
retention predicate. -/
theorem maskRows_toRows (s : FilterSpec) (rows : List JoinRow) :
    maskRows songCols s (rows.map JoinRow.toRow)
      = .ok ((rows.filter (specRetainB s)).map JoinRow.toRow) := by
  induction rows with
  | nil => rfl
  | cons r rest ih =>
    simp only [List.map_cons, maskRows, rowMask_toRow, ih, exbind_ok, expure,
      List.filter_cons]
    by_cases hp : specRetainB s r
    · simp [hp]
    · simp [hp]

/-- The columns remaining after `.iloc[:, :-1]` drops `Explicit`. -/
def midCols : List String :=
  ["Song", "Artist", "Album", "release_date", "num_tracks", "Duration", "Favorites",
   "Listens", "Genre", "Valence", "Energy", "Danceability", "Acousticness",
   "Instrumentalness", "Speechiness", "Liveness", "Tempo", "id", "album_id"]

/-- The TrackView columns (after `Genre` is also dropped). -/
def trackCols : List String :=
  ["Song", "Artist", "Album", "release_date", "num_tracks", "Duration", "Favorites",
   "Listens", "Valence", "Energy", "Danceability", "Acousticness",
   "Instrumentalness", "Speechiness", "Liveness", "Tempo", "id", "album_id"]

/-- The GenreRowView columns, in the order of the `filter` items. -/
def genreCols : List String :=
  ["id", "Valence", "Energy", "Danceability", "Acousticness", "Instrumentalness",
   "Speechiness", "Liveness", "Genre"]

/-- The `minutes:seconds` display text of an integer duration. -/
def durStr (q : Rat) : String :=
  toString (minutesOf q.num) ++ ":" ++ pad2 (q.num - minutesOf q.num * 60)

/-- The row after `.iloc[:, :-1]` and the duration re-encoding. -/
def JoinRow.rowD (r : JoinRow) : List Value :=
  [.str r.song, .str r.artist, .str r.album, .str r.releaseDate, .num r.numTracks,
   .str (durStr r.duration), .num r.favorites, .num r.listens, .str r.genre,
   .num r.valence, .num r.energy, .num r.danceability, .num r.acousticness,
   .num r.instrumentalness, .num r.speechiness, .num r.liveness, .num r.tempo,
   .num r.id, .num r.albumId]

/-- The row's image in the TrackView (genre dropped). -/
def JoinRow.trackProj (r : JoinRow) : List Value :=
  [.str r.song, .str r.artist, .str r.album, .str r.releaseDate, .num r.numTracks,
   .str (durStr r.duration), .num r.favorites, .num r.listens,
   .num r.valence, .num r.energy, .num r.danceability, .num r.acousticness,
   .num r.instrumentalness, .num r.speechiness, .num r.liveness, .num r.tempo,
   .num r.id, .num r.albumId]

/-- The row's image in the GenreRowView. -/
def JoinRow.genreProj (r : JoinRow) : List Value :=
  [.num r.id, .num r.valence, .num r.energy, .num r.danceability, .num r.acousticness,
   .num r.instrumentalness, .num r.speechiness, .num r.liveness, .str r.genre]

/-- `mapExcept` over mapped inputs when every element succeeds. -/
theorem mapExcept_map_ok {α β γ ε : Type} (g : α → Except ε β) (f : γ → α) (h : γ → β)
    (l : List γ) (hall : ∀ x ∈ l, g (f x) = .ok (h x)) :
    mapExcept g (l.map f) = .ok (l.map h) := by
  induction l with
  | nil => rfl
  | cons a rest ih =>
    simp only [List.map_cons, mapExcept, hall a (List.mem_cons_self a rest), exbind_ok,
      ih (fun x hx => hall x (List.mem_cons_of_mem a hx)), expure]

/-- Pointwise equal functions map lists equally. -/
theorem mapCongrFun {α β : Type} (f g : α → β) (l : List α) (h : ∀ x, f x = g x) :
    l.map f = l.map g :=
  congrArg (fun fn => List.map fn l) (funext h)

/-- The duration re-encoding succeeds on an integer number of seconds. -/
theorem fmtDuration_int (r : JoinRow) (hden : r.duration.den = 1) :
    fmtDuration (Value.num r.duration) = .ok (.str (durStr r.duration)) := by
  unfold fmtDuration durStr
  dsimp only
  rw [if_pos hden]

/-- The duration-formatting pass over `.iloc[:, :-1]` rows. -/
theorem applyDurationFmt_rows (l : List JoinRow) (hden : ∀ r ∈ l, r.duration.den = 1) :
    applyDurationFmt ⟨midCols, l.map (fun r => (JoinRow.toRow r).dropLast)⟩
      = .ok ⟨midCols, l.map JoinRow.rowD⟩ := by
  unfold applyDurationFmt
  have h5 : idxOf? midCols "Duration" = some 5 := rfl
  rw [h5]
  dsimp only
  rw [mapExcept_map_ok _ _ JoinRow.rowD l ?hall, exbind_ok, expure]
  case hall =>
    intro r hr
    have hget : ((JoinRow.toRow r).dropLast).get? 5 = some (.num r.duration) := rfl
    rw [hget]
    dsimp only
    rw [fmtDuration_int r (hden r hr), exbind_ok, expure]
    rfl

/-- The `filter` of the nine genre-view columns projects each row to its
GenreRowView image. -/
theorem filterCols_rows (l : List JoinRow) :
    filterCols ⟨midCols, l.map JoinRow.rowD⟩
      ["id", "Valence", "Energy", "Danceability", "Acousticness", "Instrumentalness",
       "Speechiness", "Liveness", "Genre"] = ⟨genreCols, l.map JoinRow.genreProj⟩ := by
  unfold filterCols
  dsimp only
  have hkeep : (["id", "Valence", "Energy", "Danceability", "Acousticness",
      "Instrumentalness", "Speechiness", "Liveness", "Genre"].filter
        (fun c => (idxOf? midCols c).isSome)) = genreCols := rfl
  rw [hkeep, List.map_map]
  have hrow : ∀ r : JoinRow,
      ((fun row => genreCols.map (fun c =>
          match idxOf? midCols c with
          | some i => (row.get? i).getD (.num 0)
          | none => Value.num 0)) ∘ JoinRow.rowD) r = JoinRow.genreProj r := fun r => rfl
  rw [mapCongrFun _ _ l hrow]

/-- Dropping `Genre` projects each row to its TrackView image. -/
theorem dropColF_rows (l : List JoinRow) :
    dropColF ⟨midCols, l.map JoinRow.rowD⟩ "Genre"
      = .ok ⟨trackCols, l.map JoinRow.trackProj⟩ := by
  unfold dropColF
  have h8 : idxOf? midCols "Genre" = some 8 := rfl
  rw [h8]
  dsimp only
  rw [List.map_map]
  have hrow : ∀ r : JoinRow,
      ((fun row => List.eraseIdx row 8) ∘ JoinRow.rowD) r = JoinRow.trackProj r :=
    fun r => rfl
  rw [mapCongrFun _ _ l hrow]
  rfl

/-- `get_filtered_tracks` on well-typed join rows: the retained rows are
exactly those satisfying the retention predicate, the GenreRowView is
their nine-column projection, and the TrackView is their genre-free
projection with exact duplicates collapsed. -/
theorem get_filtered_tracks_eq (rows : List JoinRow) (s : FilterSpec)
    (hden : ∀ r ∈ rows, r.duration.den = 1) :
    get_filtered_tracks ⟨songCols, rows.map JoinRow.toRow⟩ s =
      .ok (⟨trackCols, dropDuplicates ((rows.filter (specRetainB s)).map JoinRow.trackProj)⟩,
           ⟨genreCols, (rows.filter (specRetainB s)).map JoinRow.genreProj⟩) := by
  unfold get_filtered_tracks
  try dsimp only
  rw [maskRows_toRows, exbind_ok]
  try dsimp only
  have hdl : ((rows.filter (specRetainB s)).map JoinRow.toRow).map (fun row => row.dropLast)
      = (rows.filter (specRetainB s)).map (fun r => (JoinRow.toRow r).dropLast) := by
    rw [List.map_map]
    rfl
  have hcols : songCols.dropLast = midCols := rfl
  rw [hcols, hdl, applyDurationFmt_rows _
    (fun r hr => hden r (List.mem_of_mem_filter hr)), exbind_ok]
  try dsimp only
  rw [filterCols_rows, dropColF_rows, exbind_ok, expure]

/-- **C7.** A join row is retained iff all seven bounded descriptors lie
inclusively inside their ranges, tempo lies inside its range, duration (in
seconds) lies inside the minute-denominated bounds scaled by 60, and the
explicit flag is in the admissible set — conjoined; the two views are the
projections of exactly the retained rows, and an empty retained set yields
empty views rather than an error. -/
theorem filter_retention_spec (rows : List JoinRow) (s : FilterSpec)
    (hden : ∀ r ∈ rows, r.duration.den = 1) :
    ∃ tv gv, get_filtered_tracks ⟨songCols, rows.map JoinRow.toRow⟩ s = .ok (tv, gv) ∧
      gv.rows = (rows.filter (fun r => decide (specRetain s r))).map JoinRow.genreProj ∧
      tv.rows = dropDuplicates
        ((rows.filter (fun r => decide (specRetain s r))).map JoinRow.trackProj) ∧
      (rows.filter (fun r => decide (specRetain s r)) = [] → tv.rows = [] ∧ gv.rows = []) := by
  have hfb : (fun r => decide (specRetain s r)) = specRetainB s := by
    funext r
    rw [specRetainB_eq]
  rw [hfb]
  refine ⟨_, _, get_filtered_tracks_eq rows s hden, rfl, rfl, ?_⟩
  intro hempty
  rw [hempty]
  exact ⟨rfl, rfl⟩

/-- A concrete join row (track 7, genre Rock, duration 100 s). -/
def exRow : JoinRow :=
  ⟨"song", "artist", "album", "2020", 10, 100, 4, 7, "Rock", 0, 0, 0, 0, 0, 0, 0, 100, 7, 1, 0⟩

/-- A permissive concrete FilterSpec (features 0-1, tempo 0-300, duration
0-60 minutes, all explicit flags admissible). -/
def exSpec : FilterSpec :=
  ⟨0, 1, 0, 1, 0, 1, 0, 1, 0, 1, 0, 1, 0, 1, 0, 300, 0, 60, [-1, 0, 1]⟩

/-- **C7 witness.** The retention theorem discharged at the concrete
one-row catalogue and permissive filter. -/
theorem filter_retention_spec_witness :
    (∀ r ∈ [exRow], r.duration.den = 1) ∧
    (∃ tv gv, get_filtered_tracks ⟨songCols, [exRow].map JoinRow.toRow⟩ exSpec = .ok (tv, gv) ∧
      gv.rows = ([exRow].filter (fun r => decide (specRetain exSpec r))).map JoinRow.genreProj ∧
      tv.rows = dropDuplicates
        (([exRow].filter (fun r => decide (specRetain exSpec r))).map JoinRow.trackProj) ∧
      ([exRow].filter (fun r => decide (specRetain exSpec r)) = [] →
        tv.rows = [] ∧ gv.rows = [])) :=
  ⟨by decide, filter_retention_spec [exRow] exSpec (by decide)⟩

/-- Members of `dropDupAux` come from the input list. -/
theorem dropDupAux_mem : ∀ (rs seen : List (List Value)) (w : List Value),
    w ∈ dropDupAux seen rs → w ∈ rs := by
  intro rs
  induction rs with
  | nil => intro seen w hw; cases hw
  | cons r rest ih =>
    intro seen w hw
    unfold dropDupAux at hw
    by_cases hs : r ∈ seen
    · rw [if_pos hs] at hw
      exact List.mem_cons_of_mem r (ih seen w hw)
    · rw [if_neg hs] at hw
      rcases List.mem_cons.mp hw with h | h
      · exact h ▸ List.mem_cons_self r rest
      · exact List.mem_cons_of_mem r (ih (r :: seen) w h)

/-- Members of `dropDupAux` are outside the seen accumulator. -/
theorem dropDupAux_not_seen : ∀ (rs seen : List (List Value)) (w : List Value),
    w ∈ dropDupAux seen rs → w ∉ seen := by
  intro rs
  induction rs with
  | nil => intro seen w hw; cases hw
  | cons r rest ih =>
    intro seen w hw
    unfold dropDupAux at hw
    by_cases hs : r ∈ seen
    · rw [if_pos hs] at hw
      exact ih seen w hw
    · rw [if_neg hs] at hw
      rcases List.mem_cons.mp hw with h | h
      · exact h ▸ hs
      · intro hcon
        exact ih (r :: seen) w h (List.mem_cons_of_mem r hcon)

/-- If all rows satisfying `p` are one and the same row `v`, present in the
input and not yet seen, then the de-duplicated output counts `v` once. -/
theorem dropDupAux_countP_one (p : List Value → Bool) :
    ∀ (rs seen : List (List Value)) (v : List Value), p v → v ∈ rs → v ∉ seen →
      (∀ w ∈ rs, p w → w = v) → (dropDupAux seen rs).countP p = 1 := by
  intro rs
  induction rs with
  | nil => intro seen v _ hv; cases hv
  | cons r rest ih =>
    intro seen v hpv hvmem hvseen hall
    unfold dropDupAux
    by_cases hs : r ∈ seen
    · rw [if_pos hs]
      have hvr : v ≠ r := fun h => hvseen (h ▸ hs)
      have hvrest : v ∈ rest := by
        rcases List.mem_cons.mp hvmem with h | h
        · exact absurd h hvr
        · exact h
      exact ih seen v hpv hvrest hvseen
        (fun w hw hpw => hall w (List.mem_cons_of_mem r hw) hpw)
    · rw [if_neg hs]
      rw [List.countP_cons]
      by_cases hpr : p r
      · have hrv : r = v := hall r (List.mem_cons_self r rest) hpr
        subst hrv
        have hzero : (dropDupAux (r :: seen) rest).countP p = 0 := by
          rw [List.countP_eq_zero]
          intro w hw hpw
          have hwv : w = r := hall w (List.mem_cons_of_mem r (dropDupAux_mem rest _ w hw)) hpw
          exact dropDupAux_not_seen rest _ w hw (hwv ▸ List.mem_cons_self r seen)
        rw [hzero]
        simp [hpr]
      · have hvr : v ≠ r := fun h => hpr (h ▸ hpv)
        have hvrest : v ∈ rest := by
          rcases List.mem_cons.mp hvmem with h | h
          · exact absurd h hvr
          · exact h
        have hone := ih (r :: seen) v hpv hvrest
          (fun h => (List.mem_cons.mp h).elim (fun h2 => hvr h2) hvseen)
          (fun w hw hpw => hall w (List.mem_cons_of_mem r hw) hpw)
        rw [hone]
        simp [hpr]

/-- `countP` over a mapped list counts the composed predicate. -/
theorem countP_map_comp {α β : Type} (f : α → β) (p : β → Bool) (l : List α) :
    (l.map f).countP p = l.countP (fun a => p (f a)) := by
  induction l with
  | nil => rfl
  | cons a rest ih => simp [List.countP_cons, ih]

/-- `countP` respects pointwise-equal predicates. -/
theorem countP_congr_own {α : Type} (p q : α → Bool) (l : List α)
    (h : ∀ a ∈ l, p a = q a) : l.countP p = l.countP q := by
  induction l with
  | nil => rfl
  | cons a rest ih =>
    simp [List.countP_cons, h a (List.mem_cons_self a rest),
      ih (fun x hx => h x (List.mem_cons_of_mem a hx))]

/-- **C8.** The two views resolve the track-genre many-to-many relation:
the GenreRowView has one row per retained (track id, genre) join row
(counts per track id agree with the retained join rows), and whenever a
track is retained the TrackView has exactly one row for its id (rows of
one track agree once the genre column is dropped, so exact-duplicate
collapse leaves a single row). -/
theorem many_to_many_views (rows : List JoinRow) (s : FilterSpec) (t : Rat)
    (hden : ∀ r ∈ rows, r.duration.den = 1)
    (hagree : ∀ r1 ∈ rows, ∀ r2 ∈ rows, r1.id = r2.id →
      JoinRow.trackProj r1 = JoinRow.trackProj r2) :
    ∃ tv gv, get_filtered_tracks ⟨songCols, rows.map JoinRow.toRow⟩ s = .ok (tv, gv) ∧
      gv.rows.countP (fun row => row.get? 0 == some (.num t))
        = (rows.filter (fun r => decide (specRetain s r))).countP (fun r => r.id == t) ∧
      (0 < (rows.filter (fun r => decide (specRetain s r))).countP (fun r => r.id == t) →
        tv.rows.countP (fun row => row.get? 16 == some (.num t)) = 1) := by
  have hfb : (fun r => decide (specRetain s r)) = specRetainB s := by
    funext r
    rw [specRetainB_eq]
  rw [hfb]
  refine ⟨_, _, get_filtered_tracks_eq rows s hden, ?_, ?_⟩
  · rw [countP_map_comp]
    apply countP_congr_own
    intro r _
    have hg : (JoinRow.genreProj r).get? 0 = some (.num r.id) := rfl
    rw [hg]
    by_cases h : r.id = t
    · simp [h]
    · simp [h]
  · intro hpos
    obtain ⟨r0, hr0mem, hr0p⟩ := List.countP_pos.mp hpos
    have ht0 : r0.id = t := by simpa using hr0p
    unfold dropDuplicates
    apply dropDupAux_countP_one _ _ _ (JoinRow.trackProj r0)
    · have hg : (JoinRow.trackProj r0).get? 16 = some (.num r0.id) := rfl
      rw [hg, ht0]
      simp
    · exact List.mem_map_of_mem _ hr0mem
    · exact List.not_mem_nil _
    · intro w hw hpw
      obtain ⟨r1, hr1mem, hr1eq⟩ := List.mem_map.mp hw
      subst hr1eq
      have h16 : (JoinRow.trackProj r1).get? 16 = some (.num r1.id) := rfl
      rw [h16] at hpw
      have ht1 : r1.id = t := by simpa using hpw
      exact hagree r1 (List.mem_of_mem_filter hr1mem) r0 (List.mem_of_mem_filter hr0mem)
        (ht1.trans ht0.symm)

/-- `exRow` again with genre Pop (same track id 7). -/
def exRowB : JoinRow := { exRow with genre := "Pop" }

/-- `exRow` again with genre Jazz (same track id 7). -/
def exRowC : JoinRow := { exRow with genre := "Jazz" }

/-- **C8 witness.** A track retained in 3 genres: the hypotheses discharged
at the concrete 3-row join, with the GenreRowView count equal to 3 and the
TrackView count equal to 1 for its id. -/
theorem many_to_many_views_witness :
    (∀ r ∈ [exRow, exRowB, exRowC], r.duration.den = 1) ∧
    ([exRow, exRowB, exRowC].filter (fun r => decide (specRetain exSpec r))).countP
        (fun r => r.id == 7) = 3 ∧
    (∃ tv gv, get_filtered_tracks ⟨songCols, [exRow, exRowB, exRowC].map JoinRow.toRow⟩ exSpec
        = .ok (tv, gv) ∧
      gv.rows.countP (fun row => row.get? 0 == some (.num 7))
        = ([exRow, exRowB, exRowC].filter (fun r => decide (specRetain exSpec r))).countP
            (fun r => r.id == 7) ∧
      (0 < ([exRow, exRowB, exRowC].filter (fun r => decide (specRetain exSpec r))).countP
            (fun r => r.id == 7) →
        tv.rows.countP (fun row => row.get? 16 == some (.num 7)) = 1)) :=
  ⟨by decide,
    by
      norm_num [List.filter, specRetain, exSpec, exRow, exRowB, exRowC]
      try rfl,
    many_to_many_views [exRow, exRowB, exRowC] exSpec 7 (by decide) (by decide)⟩

/-- Bind on `Except` applied to a failure, for calculational proofs. -/
theorem exbind_err {ε α β : Type} (e : ε) (f : α → Except ε β) :
    (Except.error e >>= f : Except ε β) = .error e := rfl

/-- The TrackView produced by filtering the one-row catalogue: duration
re-encoded as text, no `Genre` and no `Explicit` column. -/
def exTrackView : Frame := ⟨trackCols, [JoinRow.trackProj exRow]⟩

/-- The GenreRowView produced by filtering the one-row catalogue. -/
def exGenreView : Frame := ⟨genreCols, [JoinRow.genreProj exRow]⟩

/-- The second application of the filter to the TrackView raises: the
`Duration` column now holds `minutes:seconds` text, so the duration bound
comparison is a `TypeError` (and the `Explicit` column no longer exists). -/
theorem secondApp_error : get_filtered_tracks exTrackView exSpec = .error .typeError := by
  have hrm : rowMask trackCols exSpec (JoinRow.trackProj exRow) = .error .typeError := by
    simp [rowMask, trackCols, exSpec, exRow, JoinRow.trackProj, getCol, idxOf?,
      leNumVal, valLeNum, exbind_ok, exbind_err, expure]
  have hmask : maskRows trackCols exSpec [JoinRow.trackProj exRow] = .error .typeError := by
    unfold maskRows
    rw [hrm, exbind_err]
  unfold get_filtered_tracks
  dsimp only [exTrackView]
  rw [hmask, exbind_err]

/-- **C3 counterexample.** Filtering the one-row catalogue succeeds and
produces the TrackView, but applying `get_filtered_tracks` a second time
— same FilterSpec — to that TrackView does not return an identical
TrackView: it raises a `TypeError`, because the first application
re-encoded `Duration` as text (and dropped the `Explicit` column). -/
theorem filter_not_idempotent_counterexample :
    get_filtered_tracks ⟨songCols, [exRow].map JoinRow.toRow⟩ exSpec
      = .ok (exTrackView, exGenreView) ∧
    get_filtered_tracks exTrackView exSpec = .error .typeError := by
  refine ⟨?_, secondApp_error⟩
  rw [get_filtered_tracks_eq [exRow] exSpec (by decide)]
  have hf : [exRow].filter (specRetainB exSpec) = [exRow] := by
    norm_num [List.filter, specRetainB, exSpec, exRow]
  rw [hf]
  rfl

/-- Rows that all pass the mask are retained unchanged. -/
theorem maskRows_all_true (cols : List String) (s : FilterSpec) :
    ∀ (l : List (List Value)), (∀ r ∈ l, rowMask cols s r = .ok true) →
      maskRows cols s l = .ok l := by
  intro l
  induction l with
  | nil => intro _; rfl
  | cons r rest ih =>
    intro hall
    unfold maskRows
    rw [hall r (List.mem_cons_self r rest), exbind_ok,
      ih (fun x hx => hall x (List.mem_cons_of_mem r hx)), exbind_ok, expure]
    simp

/-- Every row retained by the mask passed the mask. -/
theorem maskRows_kept_true (cols : List String) (s : FilterSpec) :
    ∀ (rows kept : List (List Value)), maskRows cols s rows = .ok kept →
      ∀ r ∈ kept, rowMask cols s r = .ok true := by
  intro rows
  induction rows with
  | nil =>
    intro kept h r hr
    cases h
    cases hr
  | cons r0 rest ih =>
    intro kept h r hr
    unfold maskRows at h
    cases hb : rowMask cols s r0 with
    | error e => rw [hb, exbind_err] at h; cases h
    | ok b =>
      rw [hb, exbind_ok] at h
      cases hrest : maskRows cols s rest with
      | error e => rw [hrest, exbind_err] at h; cases h
      | ok kept2 =>
        rw [hrest, exbind_ok, expure] at h
        cases h
        cases b with
        | true =>
          rw [if_pos rfl] at hr
          rcases List.mem_cons.mp hr with h2 | h2
          · exact h2 ▸ hb
          · exact ih kept2 hrest r h2
        | false =>
          rw [if_neg (by simp)] at hr
          exact ih kept2 hrest r hr

/-- **C3 (amended).** Row retention is idempotent — re-applying the same
FilterSpec's mask to the retained rows keeps them all — but the filter as
a whole is not: applying `get_filtered_tracks` a second time to the
produced TrackView fails with a `TypeError` (duration re-encoded as text,
`Explicit` column dropped) instead of returning an identical TrackView. -/
theorem filter_idempotence_amended :
    (∀ (cols : List String) (s : FilterSpec) (rows kept : List (List Value)),
      maskRows cols s rows = .ok kept → maskRows cols s kept = .ok kept) ∧
    get_filtered_tracks exTrackView exSpec = .error .typeError :=
  ⟨fun cols s rows kept h =>
    maskRows_all_true cols s kept (maskRows_kept_true cols s rows kept h),
    secondApp_error⟩

/-- **C3 witness.** The idempotence clause discharged at the concrete
one-row catalogue: its single row passes the mask, and re-masking the
retained rows keeps them. -/
theorem filter_idempotence_amended_witness :
    maskRows songCols exSpec [JoinRow.toRow exRow] = .ok [JoinRow.toRow exRow] :=
  filter_idempotence_amended.1 songCols exSpec [JoinRow.toRow exRow] [JoinRow.toRow exRow]
    (by
      have h := maskRows_toRows exSpec [exRow]
      rwa [show [exRow].filter (specRetainB exSpec) = [exRow] from by
        norm_num [List.filter, specRetainB, exSpec, exRow]] at h)
